import Mathlib

/-!
# PROJ context layer and pipeline scanner

A shallow embedding of `src/ctx.cpp` (the `PJ_CONTEXT` object, its factory, its
copy constructor, `proj_assign_context`) and of `src/opencl.cpp` (the kernel
scanner `pj_scan_recursive` / `pj_scan_local` / `pj_scan_nop`).

Objects that the C++ code reaches through pointers live in a memory `Mem`:
a pointer is an address (`Ptr`), the null pointer is `none`, and dereferencing
an address that holds no object is a fault. Recursion through pointers takes
a fuel argument; running out of fuel is reported apart from a fault.
-/

namespace Proj

/-- An address. A C++ pointer is an `Option Ptr`, `none` being `nullptr`. -/
abbrev Ptr := Nat

/-- What a call that follows pointers can end in. -/
inductive Outcome (α : Type) where
  | ok (a : α)
  | fault
  | outOfFuel
  deriving DecidableEq, Repr

/-- The scan functions of `opencl.cpp` a `host->scan` function pointer can hold. -/
inductive ScanFn where
  | pj_scan_recursive
  | pj_scan_local
  | pj_scan_nop
  deriving DecidableEq, Repr

/-- One entry of `alternativeCoordinateOperations`; only its `pj` member is read. -/
structure PJCoordOperation where
  pj : Option Ptr
  deriving DecidableEq, Repr

/-- The host-side part of an operation node (`pj->host`), allocated with the node.
`reassign_context` and `scan` are function pointers: the first is an index in
a table of hooks, the second names a scan function; `none` is a null pointer. -/
structure PJ_HOST where
  ctx : Option Ptr
  reassign_context : Option Nat
  alternativeCoordinateOperations : List PJCoordOperation
  scan : Option ScanFn
  file : String
  deriving DecidableEq, Repr

/-- An operation node. The six kernel slots are NUL-terminated names (the code
tests `P->fwd[0]`), so the empty string is an empty slot. -/
structure PJ where
  host : PJ_HOST
  shared_ctx : Option Ptr
  fwd : String
  inv : String
  fwd3d : String
  inv3d : String
  fwd4d : String
  inv4d : String
  axisswap : Option Ptr
  cart : Option Ptr
  cart_wgs84 : Option Ptr
  helmert : Option Ptr
  hgridshift : Option Ptr
  vgridshift : Option Ptr
  deriving DecidableEq, Repr

/-- A pointer to the character buffer of one `std::string` of a context's
`search_paths` vector (what `search_paths[i].c_str()` returns): the buffer of
the string at position `index` in the vector owned by the context at `owner`. -/
structure CStr where
  owner : Ptr
  index : Nat
  deriving DecidableEq, Repr

/-- Modelled from the spec: `pj_ctx_shared`, declared outside src/, "an opaque
block of state whose exact contents are irrelevant to this core". -/
structure pj_ctx_shared where
  contents : List Int
  deriving DecidableEq, Repr

/-- Modelled from the spec: `projCppContext`, declared outside src/, the
"extended secondary context": it is bound to one context (`ctx`, the argument
of its constructor and of `clone`) and carries state of its own. -/
structure projCppContext where
  ctx : Ptr
  state : List Int
  deriving DecidableEq, Repr

/-- The value of a `projNetworkCallbacksAndData` member (declared outside src/). -/
structure projNetworkCallbacksAndData where
  val : Nat
  deriving DecidableEq, Repr

/-- The value of a `projGridChunkCache` member (declared outside src/). -/
structure projGridChunkCache where
  val : Nat
  deriving DecidableEq, Repr

/-- The value of a `TMercAlgo` selector (declared outside src/). -/
structure TMercAlgo where
  val : Nat
  deriving DecidableEq, Repr

/-- The context object, with the members `ctx.cpp` names. Function pointers
(`logger`, `file_finder`) are indices, data pointers are addresses. -/
structure pj_ctx where
  allocator : Ptr
  debug_level : Int
  logger : Option Nat
  logger_app_data : Option Ptr
  cpp_context : Option Ptr
  use_proj4_init_rules : Int
  epsg_file_exists : Int
  ca_bundle_path : String
  env_var_proj_lib : String
  search_paths : List String
  c_compat_paths : Option (List CStr)
  file_finder : Option Nat
  file_finder_user_data : Option Ptr
  custom_sqlite3_vfs_name : String
  user_writable_directory : String
  iniFileLoaded : Bool
  endpoint : String
  networking : projNetworkCallbacksAndData
  gridChunkCache : projGridChunkCache
  defaultTmercAlgo : TMercAlgo
  shared : Option Ptr
  deriving DecidableEq, Repr

/-- The memory: operation nodes, contexts, shared-state blocks and extended
contexts by address, and the first address never handed out yet. -/
structure Mem where
  pj : Ptr → Option PJ
  ctx : Ptr → Option pj_ctx
  shared : Ptr → Option pj_ctx_shared
  cpp : Ptr → Option projCppContext
  brk : Ptr

/-- Store a node at an address. -/
def Mem.setPJ (m : Mem) (p : Ptr) (n : PJ) : Mem :=
  { m with pj := fun q => if q = p then some n else m.pj q }

/-- Store a context at an address. -/
def Mem.setCtx (m : Mem) (p : Ptr) (c : pj_ctx) : Mem :=
  { m with ctx := fun q => if q = p then some c else m.ctx q }

/-- Store a shared-state block at an address. -/
def Mem.setShared (m : Mem) (p : Ptr) (v : pj_ctx_shared) : Mem :=
  { m with shared := fun q => if q = p then some v else m.shared q }

/-- Store an extended context at an address. -/
def Mem.setCpp (m : Mem) (p : Ptr) (v : projCppContext) : Mem :=
  { m with cpp := fun q => if q = p then some v else m.cpp q }

/-- A reassignment hook `void (*)(PJ*, PJ_CONTEXT*)`: arbitrary code on the memory. -/
abbrev Hook := Mem → Ptr → Option Ptr → Mem

/-- Run a loop body over a list, stopping at the first fault. -/
def Outcome.forEach {σ β : Type} (body : σ → β → Outcome σ) : σ → List β → Outcome σ
  | s, [] => .ok s
  | s, b :: bs =>
    match body s b with
    | .ok s1 => Outcome.forEach body s1 bs
    | .fault => .fault
    | .outOfFuel => .outOfFuel

/-! ## ctx.cpp -/

/-- The expression `ctx ? ctx->shared : nullptr`. -/
def sharedOf (m : Mem) : Option Ptr → Outcome (Option Ptr)
  | none => .ok none
  | some c =>
    match m.ctx c with
    | none => .fault
    | some cobj => .ok cobj.shared

/-- Translation of `proj_assign_context(pj, ctx)` (ctx.cpp:67-82). `hooks` is
the table the `reassign_context` function pointers index; each recursive call
on an alternative uses one unit of fuel. -/
def proj_assign_context (hooks : Nat → Hook) :
    Nat → Mem → Option Ptr → Option Ptr → Outcome Mem
  | _, m, none, _ => .ok m
  | 0, _, some _, _ => .outOfFuel
  | fuel + 1, m, some pj, ctx =>
    match m.pj pj with
    | none => .fault
    | some node =>
      match sharedOf m ctx with
      | .fault => .fault
      | .outOfFuel => .outOfFuel
      | .ok sh =>
        let m1 := m.setPJ pj { node with host := { node.host with ctx := ctx }, shared_ctx := sh }
        let m2 :=
          match node.host.reassign_context with
          | none => m1
          | some h => hooks h m1 pj ctx
        match m2.pj pj with
        | none => .fault
        | some node2 =>
          Outcome.forEach (fun acc alt => proj_assign_context hooks fuel acc alt.pj ctx)
            m2 node2.host.alternativeCoordinateOperations

/-- The statement `if (nullptr==allocator) allocator = &defaultAllocator;`. -/
def orDefault (allocator : Option Ptr) (dflt : Ptr) : Ptr :=
  match allocator with
  | none => dflt
  | some a => a

/-- Modelled from the spec: `allocator->svm_new<pj_ctx_shared>()`, whose
declaration is outside src/: "a secondary block of mutable state, independently
allocated through the allocator", here a block at an address never handed out
before, holding a value-initialised `pj_ctx_shared`. -/
def svm_new (m : Mem) : Ptr × Mem :=
  let m1 := m.setShared m.brk ⟨[]⟩
  (m.brk, { m1 with brk := m.brk + 1 })

/-- What `ctx.cpp` takes from headers, libraries and the process that are not
in src/: the two log levels of `proj.h` it names, the address of the stream
logger, the address of the static default allocator, libc `atoi` and `getenv`,
the members a freshly constructed `pj_ctx` gets from its default member
initialisers, and the network interface `fillDefaultNetworkInterface` installs. -/
structure Externals where
  PJ_LOG_ERROR : Int
  PJ_LOG_TRACE : Int
  pj_stderr_logger : Nat
  defaultAllocator : Ptr
  atoi : String → Int
  getenv : String → Option String
  memberDefaults : pj_ctx
  defaultNetworkInterface : projNetworkCallbacksAndData

/-- Modelled from the spec: `FileManager::fillDefaultNetworkInterface(&ctx)`,
defined outside src/: it "initializes network defaults through the collaborator
file-manager interface". -/
def fillDefaultNetworkInterface (E : Externals) (ctx : pj_ctx) : pj_ctx :=
  { ctx with networking := E.defaultNetworkInterface }

/-- Translation of the constructor `pj_ctx::pj_ctx(pj_allocator *a)` (ctx.cpp:191-195). -/
def pj_ctx.construct (E : Externals) (m : Mem) (a : Ptr) : pj_ctx × Mem :=
  let ctx := { E.memberDefaults with allocator := a }
  let r := svm_new m
  ({ ctx with shared := some r.1 }, r.2)

/-- Translation of `pj_ctx::createDefault(allocator)` (ctx.cpp:124-147); the
context is returned by value, with the memory in which its shared block lives. -/
def pj_ctx.createDefault (E : Externals) (m : Mem) (allocator : Option Ptr) : pj_ctx × Mem :=
  let allocator := orDefault allocator E.defaultAllocator
  let r := pj_ctx.construct E m allocator
  let ctx := r.1
  let ctx := { ctx with debug_level := E.PJ_LOG_ERROR }
  let ctx := { ctx with logger := some E.pj_stderr_logger }
  let ctx := fillDefaultNetworkInterface E ctx
  let ctx :=
    match E.getenv "PROJ_DEBUG" with
    | none => ctx
    | some projDebug =>
      let debugLevel := E.atoi projDebug
      if debugLevel ≥ -E.PJ_LOG_TRACE then
        { ctx with debug_level := debugLevel }
      else
        { ctx with debug_level := E.PJ_LOG_TRACE }
  (ctx, r.2)

/-- Translation of the body of `pj_ctx::set_search_paths` (ctx.cpp:165-176) for
the context object stored at address `this`. -/
def pj_ctx.set_search_paths (this : Ptr) (c : pj_ctx) (search_paths_in : List String) : pj_ctx :=
  let c := { c with search_paths := search_paths_in }
  let c := { c with c_compat_paths := none }
  if !c.search_paths.isEmpty then
    let a := (List.range c.search_paths.length).map (fun i => CStr.mk this i)
    { c with c_compat_paths := some a }
  else
    c

/-- A call `ctx->set_search_paths(paths)` on the context at address `this`. -/
def set_search_paths (m : Mem) (this : Ptr) (search_paths_in : List String) : Outcome Mem :=
  match m.ctx this with
  | none => .fault
  | some c => .ok (m.setCtx this (c.set_search_paths this search_paths_in))

/-- Modelled from the spec: `projCppContext::clone(newCtx)`, defined outside
src/: it "clones it against the new context", a new extended context with the
same state, bound to `newCtx`. -/
def projCppContext.clone (m : Mem) (self : Ptr) (newCtx : Ptr) : Outcome (Ptr × Mem) :=
  match m.cpp self with
  | none => .fault
  | some x =>
    let m1 := m.setCpp m.brk { x with ctx := newCtx }
    .ok (m.brk, { m1 with brk := m.brk + 1 })

/-- The member initialiser
`cpp_context(other.cpp_context ? other.cpp_context->clone(this) : nullptr)`. -/
def cloneCppContext (m : Mem) (cpp_context : Option Ptr) (this : Ptr) :
    Outcome (Option Ptr × Mem) :=
  match cpp_context with
  | none => .ok (none, m)
  | some x =>
    match projCppContext.clone m x this with
    | .ok r => .ok (some r.1, r.2)
    | .fault => .fault
    | .outOfFuel => .outOfFuel

/-- Translation of the copy constructor `pj_ctx::pj_ctx(const pj_ctx& other,
pj_allocator *a)` (ctx.cpp:205-232), constructing at address `this`. The three
members outside the initialiser list start as an empty vector and null pointers. -/
def pj_ctx.copyWith (m : Mem) (this : Ptr) (other : Ptr) (a : Ptr) : Outcome Mem :=
  match m.ctx other with
  | none => .fault
  | some o =>
    match cloneCppContext m o.cpp_context this with
    | .fault => .fault
    | .outOfFuel => .outOfFuel
    | .ok r =>
      let c : pj_ctx :=
        { allocator := a
          debug_level := o.debug_level
          logger := o.logger
          logger_app_data := o.logger_app_data
          cpp_context := r.1
          use_proj4_init_rules := o.use_proj4_init_rules
          epsg_file_exists := o.epsg_file_exists
          ca_bundle_path := o.ca_bundle_path
          env_var_proj_lib := o.env_var_proj_lib
          search_paths := []
          c_compat_paths := none
          file_finder := o.file_finder
          file_finder_user_data := o.file_finder_user_data
          custom_sqlite3_vfs_name := o.custom_sqlite3_vfs_name
          user_writable_directory := o.user_writable_directory
          iniFileLoaded := o.iniFileLoaded
          endpoint := o.endpoint
          networking := o.networking
          gridChunkCache := o.gridChunkCache
          defaultTmercAlgo := o.defaultTmercAlgo
          shared := none }
      let c := c.set_search_paths this o.search_paths
      let s := svm_new r.2
      let c := { c with shared := some s.1 }
      match o.shared with
      | none => .fault
      | some os =>
        match s.2.shared os with
        | none => .fault
        | some v => .ok ((s.2.setShared s.1 v).setCtx this c)

/-- Translation of the copy constructor `pj_ctx::pj_ctx(const pj_ctx& other)`
(ctx.cpp:201-203), which delegates with `other.allocator`. -/
def pj_ctx.copy (m : Mem) (this : Ptr) (other : Ptr) : Outcome Mem :=
  match m.ctx other with
  | none => .fault
  | some o => pj_ctx.copyWith m this other o.allocator

/-- Translation of `proj_context_clone(ctx)` (ctx.cpp:263-269). The call
`proj_context_create()` for a null argument is outside src/ and passed in;
`new (std::nothrow)` is taken to find room, at an address never handed out before. -/
def proj_context_clone (proj_context_create : Mem → Outcome (Option Ptr × Mem))
    (m : Mem) (ctx : Option Ptr) : Outcome (Option Ptr × Mem) :=
  match ctx with
  | none => proj_context_create m
  | some c =>
    let this := m.brk
    match pj_ctx.copy { m with brk := m.brk + 1 } this c with
    | .ok m1 => .ok (some this, m1)
    | .fault => .fault
    | .outOfFuel => .outOfFuel

/-- The string a `c_compat_paths` entry points at: the current contents of the
path string whose buffer it is. -/
def CStr.deref (m : Mem) (p : CStr) : Option String :=
  match m.ctx p.owner with
  | none => none
  | some c => c.search_paths[p.index]?

/-- The entries of the array `c_compat_paths`; a null pointer is an array of no entries. -/
def pj_ctx.view (c : pj_ctx) : List CStr :=
  match c.c_compat_paths with
  | none => []
  | some v => v

/-- Modelled from the spec: the constructor `projCppContext(ctx)`, defined
outside src/: `get_cpp_context` "constructs one bound to this ExecutionContext";
the state a new extended context starts with is left open by the spec and is
empty here. -/
def projCppContext.construct (ctx : Ptr) : projCppContext := ⟨ctx, []⟩

/-- Translation of `pj_ctx::get_cpp_context()` (ctx.cpp:153-159) on the context
at address `this`; `new` is taken to find room, at an address never handed out
before. -/
def pj_ctx.get_cpp_context (m : Mem) (this : Ptr) : Outcome (Option Ptr × Mem) :=
  match m.ctx this with
  | none => .fault
  | some c =>
    match c.cpp_context with
    | none =>
      let x := m.brk
      let m1 := m.setCpp x (projCppContext.construct this)
      let m2 := { m1 with brk := m.brk + 1 }
      .ok (some x, m2.setCtx this { c with cpp_context := some x })
    | some x => .ok (some x, m)

/-- Translation of `pj_get_default_ctx()` (ctx.cpp:238-244). `default_context` is
the address of the function-local static; the static is initialised, with
`createDefault(nullptr)`, by the first call, that is, when no context lives at
that address yet. -/
def pj_get_default_ctx (E : Externals) (default_context : Ptr) (m : Mem) : Option Ptr × Mem :=
  match m.ctx default_context with
  | some _ => (some default_context, m)
  | none =>
    let r := pj_ctx.createDefault E m none
    (some default_context, r.2.setCtx default_context r.1)

/-- Translation of `pj_get_ctx(pj)` (ctx.cpp:46-54). -/
def pj_get_ctx (E : Externals) (default_context : Ptr) (m : Mem) (pj : Option Ptr) :
    Outcome (Option Ptr × Mem) :=
  match pj with
  | none => .ok (pj_get_default_ctx E default_context m)
  | some p =>
    match m.pj p with
    | none => .fault
    | some node =>
      match node.host.ctx with
      | none => .ok (pj_get_default_ctx E default_context m)
      | some c => .ok (some c, m)

/-! ## opencl.cpp -/

/-- Modelled from the spec: `PJscan`, declared outside src/: "a set of distinct
kernel identities (deduplicated) and a set of distinct source-file identifiers
(deduplicated), both insertion-order-irrelevant". -/
structure PJscan where
  functions : Finset String
  files : Finset String
  deriving DecidableEq

/-- The test `P->fwd[0]` on a kernel slot: the name is not empty. -/
def slotSet (k : String) : Bool := !k.isEmpty

/-- Translation of `pj_scan_local(P, s)` (opencl.cpp:19-66) on the node `P` points at. -/
def pj_scan_local (P : PJ) (s : PJscan) : PJscan :=
  let add_file := false
  let r : PJscan × Bool :=
    if slotSet P.fwd then ({ s with functions := insert P.fwd s.functions }, true)
    else (s, add_file)
  let r : PJscan × Bool :=
    if slotSet P.inv then ({ r.1 with functions := insert P.inv r.1.functions }, true) else r
  let r : PJscan × Bool :=
    if slotSet P.fwd3d then ({ r.1 with functions := insert P.fwd3d r.1.functions }, true) else r
  let r : PJscan × Bool :=
    if slotSet P.inv3d then ({ r.1 with functions := insert P.inv3d r.1.functions }, true) else r
  let r : PJscan × Bool :=
    if slotSet P.fwd4d then ({ r.1 with functions := insert P.fwd4d r.1.functions }, true) else r
  let r : PJscan × Bool :=
    if slotSet P.inv4d then ({ r.1 with functions := insert P.inv4d r.1.functions }, true) else r
  if r.2 then { r.1 with files := insert P.host.file r.1.files } else r.1

/-- Translation of `pj_scan_nop(P, s)` (opencl.cpp:69-73). -/
def pj_scan_nop (_P : PJ) (s : PJscan) : PJscan := s

/-- Sequencing of calls that may fault. -/
def Outcome.andThen {α β : Type} (x : Outcome α) (f : α → Outcome β) : Outcome β :=
  match x with
  | .ok a => f a
  | .fault => .fault
  | .outOfFuel => .outOfFuel

/-- The call `sub->host->scan(sub, s)`: `sub` and the function pointer are
dereferenced, then the scan function the pointer names runs; `recursive` is
`pj_scan_recursive` at the fuel left. -/
def hostScan (recursive : Mem → Option Ptr → PJscan → Outcome PJscan) (m : Mem)
    (sub : Option Ptr) (s : PJscan) : Outcome PJscan :=
  match sub with
  | none => .fault
  | some q =>
    match m.pj q with
    | none => .fault
    | some node =>
      match node.host.scan with
      | none => .fault
      | some ScanFn.pj_scan_local => .ok (pj_scan_local node s)
      | some ScanFn.pj_scan_nop => .ok (pj_scan_nop node s)
      | some ScanFn.pj_scan_recursive => recursive m sub s

/-- Translation of `pj_scan_recursive(P, s)` (opencl.cpp:5-16). A call uses one
unit of fuel. -/
def pj_scan_recursive : Nat → Mem → Option Ptr → PJscan → Outcome PJscan
  | 0, _, _, _ => .outOfFuel
  | fuel + 1, m, P, s =>
    match P with
    | none => .fault
    | some p =>
      match m.pj p with
      | none => .fault
      | some node =>
        let s := pj_scan_local node s
        (hostScan (pj_scan_recursive fuel) m node.axisswap s).andThen fun s =>
        (hostScan (pj_scan_recursive fuel) m node.cart s).andThen fun s =>
        (hostScan (pj_scan_recursive fuel) m node.cart_wgs84 s).andThen fun s =>
        (hostScan (pj_scan_recursive fuel) m node.helmert s).andThen fun s =>
        (hostScan (pj_scan_recursive fuel) m node.hgridshift s).andThen fun s =>
        hostScan (pj_scan_recursive fuel) m node.vgridshift s

/-! ## Properties of the node graph -/

/-- Node `q` is reachable from node `p` through the alternatives lists. -/
inductive Reach (m : Mem) : Ptr → Ptr → Prop where
  | here (p : Ptr) : Reach m p p
  | step {p q r : Ptr} {n : PJ} {alt : PJCoordOperation} :
      m.pj p = some n → alt ∈ n.host.alternativeCoordinateOperations → alt.pj = some q →
      Reach m q r → Reach m p r

/-- In both memories the same nodes exist with the same alternatives lists, and
the same contexts exist with the same shared-state pointers. -/
def SameGraph (m m1 : Mem) : Prop :=
  (∀ q, (m1.pj q).map (fun n => n.host.alternativeCoordinateOperations)
      = (m.pj q).map (fun n => n.host.alternativeCoordinateOperations)) ∧
  (∀ a, (m1.ctx a).map (fun c => c.shared) = (m.ctx a).map (fun c => c.shared))

/-- Every node has the same context reference and shared-state reference in both memories. -/
def KeepsRefs (m m1 : Mem) : Prop :=
  ∀ q, (m1.pj q).map (fun n => (n.host.ctx, n.shared_ctx))
      = (m.pj q).map (fun n => (n.host.ctx, n.shared_ctx))

/-- No reassignment hook overwrites a context reference or a shared-state
reference, and none changes an alternatives list or a context's shared-state pointer. -/
def HooksKeepRefs (hooks : Nat → Hook) : Prop :=
  ∀ h m p c, SameGraph m (hooks h m p c) ∧ KeepsRefs m (hooks h m p c)

/-- The alternatives lists hold only null pointers and pointers to nodes, and
form no cycle: `rank` decreases along every alternative. -/
def AltsWellFormed (m : Mem) (rank : Ptr → Nat) : Prop :=
  ∀ p n, m.pj p = some n → ∀ alt ∈ n.host.alternativeCoordinateOperations, ∀ q, alt.pj = some q →
    (∃ n1, m.pj q = some n1) ∧ rank q < rank p

/-- Node `q` exists with context reference `ctx` and shared-state reference `sh`. -/
def Assigned (ctx sh : Option Ptr) (m : Mem) (q : Ptr) : Prop :=
  ∃ n, m.pj q = some n ∧ n.host.ctx = ctx ∧ n.shared_ctx = sh

/-! ## What a scan is to find -/

/-- The six kernel slots of a node. -/
def PJ.slots (n : PJ) : List String := [n.fwd, n.inv, n.fwd3d, n.inv3d, n.fwd4d, n.inv4d]

/-- The identities of the non-empty kernel slots of a node. -/
def PJ.kernels (n : PJ) : Finset String := (n.slots.filter slotSet).toFinset

/-- At least one kernel slot of the node is non-empty. -/
def PJ.hasKernel (n : PJ) : Bool := n.slots.any slotSet

/-- The source file of a node if at least one of its slots is non-empty, nothing otherwise. -/
def PJ.kernelFiles (n : PJ) : Finset String :=
  if n.hasKernel then {n.host.file} else ∅

/-- The union of two scan results. -/
def PJscan.union (a b : PJscan) : PJscan := ⟨a.functions ∪ b.functions, a.files ∪ b.files⟩

/-- The empty scan result. -/
def PJscan.empty : PJscan := ⟨∅, ∅⟩

/-- The kernels and the file a sub-operation is to contribute: those of the node
when its scan function is `pj_scan_local`, nothing otherwise. -/
def PJ.localPart (n : PJ) : PJscan :=
  if n.host.scan = some ScanFn.pj_scan_local then ⟨n.kernels, n.kernelFiles⟩ else PJscan.empty

/-- The sub-operation pointer `sub` points at the node `n`, whose scan function is
`pj_scan_local` or `pj_scan_nop`. -/
def SubLocal (m : Mem) (sub : Option Ptr) (n : PJ) : Prop :=
  ∃ q, sub = some q ∧ m.pj q = some n ∧
    (n.host.scan = some ScanFn.pj_scan_local ∨ n.host.scan = some ScanFn.pj_scan_nop)

/-- One of the six `if (P->slot[0]) { s.functions.insert(P->slot); add_file = true; }`
blocks of `pj_scan_local`, on the pair of `s` and `add_file`. -/
def scanSlot (r : PJscan × Bool) (k : String) : PJscan × Bool :=
  if slotSet k then ({ r.1 with functions := insert k r.1.functions }, true) else r

/-- What a scan function does to the result it is given, whatever that result
is: it adds a fixed set of kernels and files, or it faults, or it runs out of fuel. -/
def ScanShape (f : PJscan → Outcome PJscan) : Prop :=
  (∃ K, ∀ s, f s = .ok (s.union K)) ∨ (∀ s, f s = .fault) ∨ (∀ s, f s = .outOfFuel)

/-! ## Graphs that differ in alternatives only -/

/-- The node with its alternatives list emptied. -/
def PJ.dropAlts (n : PJ) : PJ :=
  { n with host := { n.host with alternativeCoordinateOperations := [] } }

/-- The memory with the alternatives list of every node emptied. -/
def Mem.dropAlts (m : Mem) : Mem :=
  { m with pj := fun q => (m.pj q).map PJ.dropAlts }

/-- The two memories hold the same nodes at the same addresses, up to their
alternatives lists. -/
def SameButAlts (m m2 : Mem) : Prop :=
  ∀ q, (m2.pj q).map PJ.dropAlts = (m.pj q).map PJ.dropAlts

/-! ## Well-formed memories -/

/-- No object lives at an address the allocator has not handed out yet. -/
def Mem.Fresh (m : Mem) : Prop :=
  ∀ a, m.brk ≤ a → m.pj a = none ∧ m.ctx a = none ∧ m.shared a = none ∧ m.cpp a = none

/-- The context `co` is stored at address `c`, its shared-state pointer and its
extended-context pointer (if not null) point at objects, and the entries of its
view array point into its own path strings. -/
def CtxValid (m : Mem) (c : Ptr) (co : pj_ctx) : Prop :=
  m.ctx c = some co ∧
  (∃ os v, co.shared = some os ∧ m.shared os = some v) ∧
  (∀ x, co.cpp_context = some x → ∃ obj, m.cpp x = some obj) ∧
  (∀ e ∈ co.view, e.owner = c)

/-! ## libc and proj.h -/

/-- The libc function `isspace` in the C locale. -/
def isspace (c : Char) : Bool :=
  c.toNat = 32 || (9 ≤ c.toNat && c.toNat ≤ 13)

/-- The digits loop of `atoi`: the value of the leading decimal digits. -/
def atoiDigits : Int → List Char → Int
  | acc, [] => acc
  | acc, c :: cs => if c.isDigit then atoiDigits (10 * acc + ((c.toNat - 48 : Nat) : Int)) cs else acc

/-- The sign and digits part of `atoi`, after the leading white space. -/
def atoiSigned (cs : List Char) : Int :=
  match cs with
  | [] => 0
  | c :: rest =>
    if c = '-' then -atoiDigits 0 rest
    else if c = '+' then atoiDigits 0 rest
    else atoiDigits 0 (c :: rest)

/-- The smallest `int` (32 bits). -/
def INT_MIN : Int := -2147483648

/-- The largest `int` (32 bits). -/
def INT_MAX : Int := 2147483647

/-- The smallest `long` (64 bits). -/
def LONG_MIN : Int := -9223372036854775808

/-- The largest `long` (64 bits). -/
def LONG_MAX : Int := 9223372036854775807

/-- The integer a string denotes to `strtol` and `atoi`, as a number without
bound: leading white space is skipped, an optional sign is read, then decimal
digits up to the first other character; without a digit it is 0. -/
def decimalValue (s : String) : Int := atoiSigned (s.toList.dropWhile isspace)

/-- What `strtol` returns for a value: the value, or `LONG_MIN` / `LONG_MAX`
when it is out of the range of `long`. -/
def saturateLong (v : Int) : Int :=
  if v < LONG_MIN then LONG_MIN else if LONG_MAX < v then LONG_MAX else v

/-- The conversion of a `long` to `int`: the low 32 bits, in two's complement. -/
def toInt32 (v : Int) : Int := (v + 2147483648) % 4294967296 - 2147483648

/-- The libc function `atoi` as glibc has it, `(int) strtol(s, NULL, 10)`: the
value the string denotes, saturated to the range of `long` and then cut to the
low 32 bits. Within the range of `int` it is the value the string denotes. -/
def libc_atoi (s : String) : Int := toInt32 (saturateLong (decimalValue s))

/-- What the C standard asks of `atoi`: when the value the string denotes is in
the range of `int`, `atoi` returns it. -/
def AtoiInRange (atoi : String → Int) : Prop :=
  ∀ s, INT_MIN ≤ decimalValue s → decimalValue s ≤ INT_MAX → atoi s = decimalValue s

/-- The string has a numeric prefix: after white space and an optional sign it
goes on with a digit. It need not be an integer as a whole. -/
def hasNumericPrefix (s : String) : Bool :=
  match s.toList.dropWhile isspace with
  | [] => false
  | c :: rest =>
    if c = '-' || c = '+' then
      match rest with
      | [] => false
      | d :: _ => d.isDigit
    else c.isDigit

/-- The string is an integer as a whole: after white space, an optional sign,
then one digit or more, then the end of the string. -/
def parsesAsInteger (s : String) : Bool :=
  match s.toList.dropWhile isspace with
  | [] => false
  | c :: rest =>
    if c = '-' || c = '+' then !rest.isEmpty && rest.all Char.isDigit
    else (c :: rest).all Char.isDigit

/-- An environment in which `PROJ_DEBUG` has the given value, or is absent. -/
def envWith (v : Option String) : String → Option String :=
  fun name => if name = "PROJ_DEBUG" then v else none

/-- The externals with the values of `proj.h` (`PJ_LOG_ERROR` is 1 and
`PJ_LOG_TRACE` is 3), the `atoi` of glibc, and the given environment. -/
def projExternals (env : String → Option String) : Externals :=
  { PJ_LOG_ERROR := 1
    PJ_LOG_TRACE := 3
    pj_stderr_logger := 1
    defaultAllocator := 0
    atoi := libc_atoi
    getenv := env
    memberDefaults :=
      { allocator := 0, debug_level := 1, logger := none, logger_app_data := none
        cpp_context := none, use_proj4_init_rules := -1, epsg_file_exists := -1
        ca_bundle_path := "", env_var_proj_lib := "", search_paths := []
        c_compat_paths := none, file_finder := none, file_finder_user_data := none
        custom_sqlite3_vfs_name := "", user_writable_directory := "", iniFileLoaded := false
        endpoint := "", networking := ⟨0⟩, gridChunkCache := ⟨0⟩, defaultTmercAlgo := ⟨0⟩
        shared := none }
    defaultNetworkInterface := ⟨1⟩ }

/-! ## Concrete inputs -/

/-- A node with the given context references, hook and alternatives, no kernel
and no sub-operation. -/
def demoNode (ctx sh : Option Ptr) (hook : Option Nat) (alts : List (Option Ptr)) : PJ :=
  { host := { ctx := ctx, reassign_context := hook,
              alternativeCoordinateOperations := alts.map PJCoordOperation.mk,
              scan := some ScanFn.pj_scan_local, file := "" }
    shared_ctx := sh, fwd := "", inv := "", fwd3d := "", inv3d := "", fwd4d := "", inv4d := ""
    axisswap := none, cart := none, cart_wgs84 := none, helmert := none, hgridshift := none
    vgridshift := none }

/-- A context with the given debug level, search paths, extended context and shared block. -/
def demoCtx (level : Int) (paths : List String) (view : Option (List CStr))
    (cpp shared : Option Ptr) : pj_ctx :=
  { allocator := 0, debug_level := level, logger := none, logger_app_data := none
    cpp_context := cpp, use_proj4_init_rules := -1, epsg_file_exists := -1
    ca_bundle_path := "", env_var_proj_lib := "", search_paths := paths
    c_compat_paths := view, file_finder := none, file_finder_user_data := none
    custom_sqlite3_vfs_name := "", user_writable_directory := "", iniFileLoaded := false
    endpoint := "", networking := ⟨0⟩, gridChunkCache := ⟨0⟩, defaultTmercAlgo := ⟨0⟩
    shared := shared }

/-- A root (address 0, bound to context 10, with a hook) with the alternatives
1, 2 and a null entry; node 1 has the alternative 3, which node 0 does not list.
Contexts 10 and 11 own the shared blocks 20 and 21. -/
def demoTree : Mem :=
  { pj := fun p =>
      match p with
      | 0 => some (demoNode (some 10) (some 20) (some 0) [some 1, some 2, none])
      | 1 => some (demoNode (some 10) (some 20) none [some 3])
      | 2 => some (demoNode none none none [])
      | 3 => some (demoNode (some 10) (some 20) none [])
      | _ => none
    ctx := fun a =>
      match a with
      | 10 => some (demoCtx 1 [] none none (some 20))
      | 11 => some (demoCtx 1 [] none none (some 21))
      | _ => none
    shared := fun a =>
      match a with
      | 20 => some ⟨[1]⟩
      | 21 => some ⟨[2]⟩
      | _ => none
    cpp := fun _ => none
    brk := 30 }

/-- A table of hooks that refresh data cached in the node they are called on
(here its 4D inverse kernel name) and leave everything else as it is. -/
def demoHooks : Nat → Hook := fun _ m pj _ =>
  match m.pj pj with
  | none => m
  | some n => m.setPJ pj { n with inv4d := "rebound" }

/-- A node of a pipeline: its scan function, its file, its 2D forward and inverse
kernels and its six sub-operations. -/
def demoStep (scan : ScanFn) (file fwd inv : String) (subs : List (Option Ptr)) : PJ :=
  { host := { ctx := none, reassign_context := none, alternativeCoordinateOperations := [],
              scan := some scan, file := file }
    shared_ctx := none, fwd := fwd, inv := inv, fwd3d := "", inv3d := "", fwd4d := "", inv4d := ""
    axisswap := subs.getD 0 none, cart := subs.getD 1 none, cart_wgs84 := subs.getD 2 none
    helmert := subs.getD 3 none, hgridshift := subs.getD 4 none, vgridshift := subs.getD 5 none }

/-- The root of the demo pipeline, without a kernel of its own. -/
def demoRoot : PJ :=
  demoStep ScanFn.pj_scan_recursive "pipeline.cpp" "" ""
    [some 1, some 2, some 3, some 4, some 5, some 6]

/-- The Cartesian sub-operation, with two kernels. -/
def demoCart : PJ := demoStep ScanFn.pj_scan_local "cart.cpp" "cart_fwd" "cart_inv" []

/-- The Helmert sub-operation, with one kernel. -/
def demoHelmert : PJ := demoStep ScanFn.pj_scan_local "helmert.cpp" "helmert_fwd" "" []

/-- A sub-operation without a kernel, scanned with `pj_scan_local`. -/
def demoPlain : PJ := demoStep ScanFn.pj_scan_local "plain.cpp" "" "" []

/-- A sub-operation of a no-op kind. -/
def demoNop : PJ := demoStep ScanFn.pj_scan_nop "nop.cpp" "" "" []

/-- A pipeline with kernels on the Cartesian (2) and Helmert (4) sub-operations only. -/
def demoPipeline : Mem :=
  { pj := fun p =>
      match p with
      | 0 => some demoRoot
      | 1 => some demoNop
      | 2 => some demoCart
      | 3 => some demoPlain
      | 4 => some demoHelmert
      | 5 => some demoPlain
      | 6 => some demoNop
      | _ => none
    ctx := fun _ => none
    shared := fun _ => none
    cpp := fun _ => none
    brk := 7 }

/-- A context for address 0: debug level 2, two search paths with their view
array, the extended context 0 and the shared block 0. -/
def demoCtx0 : pj_ctx :=
  demoCtx 2 ["/usr/share/proj", "/opt/grids"] (some [⟨0, 0⟩, ⟨0, 1⟩]) (some 0) (some 0)

/-- A memory with the context `demoCtx0` at address 0, its shared block and its
extended context. -/
def demoCtxMem : Mem :=
  { pj := fun _ => none
    ctx := fun a =>
      match a with
      | 0 => some demoCtx0
      | _ => none
    shared := fun a =>
      match a with
      | 0 => some ⟨[7]⟩
      | _ => none
    cpp := fun a =>
      match a with
      | 0 => some ⟨0, [5]⟩
      | _ => none
    brk := 1 }

/-- A stand-in for `proj_context_create`, which the demo never calls. -/
def demoCreate : Mem → Outcome (Option Ptr × Mem) := fun _ => .fault

/-- The demo pipeline with the axis-swap sub-operation of the root absent. -/
def demoPartial : Mem :=
  { demoPipeline with
    pj := fun p =>
      match p with
      | 0 => some (demoStep ScanFn.pj_scan_recursive "pipeline.cpp" "" ""
          [none, some 2, some 3, some 4, some 5, some 6])
      | q => demoPipeline.pj q }

/-- The demo pipeline with an alternative (node 7, with two kernels) on the root,
and a second root (node 8) with the same slots, file and sub-operations and no
alternative. -/
def demoAlt : Mem :=
  { demoPipeline with
    pj := fun p =>
      match p with
      | 0 => some { demoRoot with
          host := { demoRoot.host with alternativeCoordinateOperations := [⟨some 7⟩] } }
      | 7 => some (demoStep ScanFn.pj_scan_local "alt.cpp" "alt_fwd" "alt_inv" [])
      | 8 => some demoRoot
      | q => demoPipeline.pj q }

/-- A context with every configuration attribute away from its default: for
address 3, with three search paths and their view array, the extended context
1 and the shared block 2. -/
def demoRichCtx : pj_ctx :=
  { allocator := 6, debug_level := -2, logger := some 7, logger_app_data := some 8
    cpp_context := some 1, use_proj4_init_rules := 1, epsg_file_exists := 0
    ca_bundle_path := "/etc/ssl/ca.pem", env_var_proj_lib := "/opt/proj/share"
    search_paths := ["/usr/share/proj", "/opt/grids", "/tmp/proj"]
    c_compat_paths := some [⟨3, 0⟩, ⟨3, 1⟩, ⟨3, 2⟩]
    file_finder := some 9, file_finder_user_data := some 10
    custom_sqlite3_vfs_name := "memvfs"
    user_writable_directory := "/home/u/.local/share/proj", iniFileLoaded := true
    endpoint := "https://cdn.proj.org", networking := ⟨5⟩, gridChunkCache := ⟨6⟩
    defaultTmercAlgo := ⟨1⟩, shared := some 2 }

/-- A memory with the context `demoRichCtx` at address 3, its shared block at 2
and its extended context at 1. -/
def demoRichMem : Mem :=
  { pj := fun _ => none
    ctx := fun a =>
      match a with
      | 3 => some demoRichCtx
      | _ => none
    shared := fun a =>
      match a with
      | 2 => some ⟨[4, 2]⟩
      | _ => none
    cpp := fun a =>
      match a with
      | 1 => some ⟨3, [9]⟩
      | _ => none
    brk := 4 }

theorem map_eq_some {α β : Type} {f : α → β} {o o1 : Option α} {a : α}
    (h : o1.map f = o.map f) (ha : o = some a) : ∃ a1, o1 = some a1 ∧ f a1 = f a := by
  subst ha
  cases o1 with
  | none => simp at h
  | some a1 => exact ⟨a1, rfl, by simpa using h⟩

theorem SameGraph.rfl_ (m : Mem) : SameGraph m m := ⟨fun _ => rfl, fun _ => rfl⟩

theorem SameGraph.trans_ {m m1 m2 : Mem} (h1 : SameGraph m m1) (h2 : SameGraph m1 m2) :
    SameGraph m m2 :=
  ⟨fun q => (h2.1 q).trans (h1.1 q), fun a => (h2.2 a).trans (h1.2 a)⟩

theorem SameGraph.symm_ {m m1 : Mem} (h : SameGraph m m1) : SameGraph m1 m :=
  ⟨fun q => (h.1 q).symm, fun a => (h.2 a).symm⟩

theorem SameGraph.reach {m m1 : Mem} (h : SameGraph m m1) {p q : Ptr} (r : Reach m p q) :
    Reach m1 p q := by
  induction r with
  | here p => exact Reach.here p
  | step hn halt hq _ ih =>
    obtain ⟨n1, hn1, he⟩ := map_eq_some (h.1 _) hn
    exact Reach.step hn1 (by simpa [he] using halt) hq ih

theorem SameGraph.wellFormed {m m1 : Mem} (h : SameGraph m m1) {rank : Ptr → Nat}
    (w : AltsWellFormed m rank) : AltsWellFormed m1 rank := by
  intro p n1 hn1 alt halt q hq
  obtain ⟨n, hn, he⟩ := map_eq_some (h.symm_.1 p) hn1
  obtain ⟨⟨n2, hn2⟩, hr⟩ := w p n hn alt (by simpa [he] using halt) q hq
  obtain ⟨n3, hn3, _⟩ := map_eq_some (h.1 q) hn2
  exact ⟨⟨n3, hn3⟩, hr⟩

theorem SameGraph.sharedOf {m m1 : Mem} (h : SameGraph m m1) (ctx : Option Ptr) :
    sharedOf m1 ctx = sharedOf m ctx := by
  cases ctx with
  | none => rfl
  | some c =>
    have := h.2 c
    unfold Proj.sharedOf
    cases h1 : m1.ctx c <;> cases h0 : m.ctx c <;> simp_all

theorem KeepsRefs.assigned {m m1 : Mem} (h : KeepsRefs m m1) {ctx sh : Option Ptr} {q : Ptr}
    (a : Assigned ctx sh m q) : Assigned ctx sh m1 q := by
  obtain ⟨n, hn, hc, hs⟩ := a
  obtain ⟨n1, hn1, he⟩ := map_eq_some (h q) hn
  simp only [Prod.mk.injEq] at he
  exact ⟨n1, hn1, he.1.trans hc, he.2.trans hs⟩

theorem proj_assign_context_null (hooks : Nat → Hook) (fuel : Nat) (m : Mem) (ctx : Option Ptr) :
    proj_assign_context hooks fuel m none ctx = .ok m := by
  cases fuel <;> rfl

theorem setPJ_self (m : Mem) (p : Ptr) (n : PJ) : (m.setPJ p n).pj p = some n := by
  simp [Mem.setPJ]

theorem setPJ_sameGraph {m : Mem} {p : Ptr} {node : PJ} (hn : m.pj p = some node)
    (ctx sh : Option Ptr) :
    SameGraph m (m.setPJ p { node with host := { node.host with ctx := ctx }, shared_ctx := sh }) := by
  refine ⟨fun q => ?_, fun a => rfl⟩
  by_cases hq : q = p
  · subst hq; simp [Mem.setPJ, hn]
  · simp [Mem.setPJ, hq]

theorem setPJ_assigned {m : Mem} {p : Ptr} (node : PJ) (ctx sh : Option Ptr) (q : Ptr)
    (a : Assigned ctx sh m q) :
    Assigned ctx sh
      (m.setPJ p { node with host := { node.host with ctx := ctx }, shared_ctx := sh }) q := by
  by_cases hq : q = p
  · subst hq; exact ⟨_, setPJ_self _ _ _, rfl, rfl⟩
  · obtain ⟨n, hn, hc, hs⟩ := a
    exact ⟨n, by simpa [Mem.setPJ, hq] using hn, hc, hs⟩

/-- The loop over the alternatives, given the statement for one call at this fuel. -/
theorem assign_alts_ok (hooks : Nat → Hook) (ctx sh : Option Ptr) (rank : Ptr → Nat) (fuel : Nat)
    (ih : ∀ m p, AltsWellFormed m rank → rank p < fuel → (∃ n, m.pj p = some n) →
      sharedOf m ctx = .ok sh →
      ∃ m1, proj_assign_context hooks fuel m (some p) ctx = .ok m1 ∧ SameGraph m m1 ∧
        (∀ q, Assigned ctx sh m q → Assigned ctx sh m1 q) ∧
        (∀ q, Reach m p q → Assigned ctx sh m1 q)) :
    ∀ (l : List PJCoordOperation) (m : Mem), AltsWellFormed m rank → sharedOf m ctx = .ok sh →
      (∀ alt ∈ l, ∀ q, alt.pj = some q → (∃ n, m.pj q = some n) ∧ rank q < fuel) →
      ∃ m1, Outcome.forEach (fun acc alt => proj_assign_context hooks fuel acc alt.pj ctx) m l
          = .ok m1 ∧ SameGraph m m1 ∧
        (∀ q, Assigned ctx sh m q → Assigned ctx sh m1 q) ∧
        (∀ alt ∈ l, ∀ q, alt.pj = some q → ∀ r, Reach m q r → Assigned ctx sh m1 r) := by
  intro l
  induction l with
  | nil =>
    intro m _ _ _
    exact ⟨m, rfl, SameGraph.rfl_ m, fun _ h => h, by simp⟩
  | cons alt l ihl =>
    intro m w hsh hv
    cases hp : alt.pj with
    | none =>
      have hv1 : ∀ a ∈ l, ∀ q, a.pj = some q → (∃ n, m.pj q = some n) ∧ rank q < fuel :=
        fun a ha => hv a (List.mem_cons_of_mem _ ha)
      obtain ⟨m1, hrun, hg, hkeep, hall⟩ := ihl m w hsh hv1
      refine ⟨m1, ?_, hg, hkeep, ?_⟩
      · simp only [Outcome.forEach, hp, proj_assign_context_null]
        exact hrun
      · intro a ha q hq r hr
        rcases List.mem_cons.mp ha with rfl | ha
        · rw [hp] at hq; cases hq
        · exact hall a ha q hq r hr
    | some q0 =>
      obtain ⟨hex, hlt⟩ := hv alt (List.mem_cons_self _ _) q0 hp
      obtain ⟨m1, hrun1, hg1, hkeep1, hall1⟩ := ih m q0 w hlt hex hsh
      have hv1 : ∀ a ∈ l, ∀ q, a.pj = some q → (∃ n, m1.pj q = some n) ∧ rank q < fuel := by
        intro a ha q hq
        obtain ⟨⟨n, hn⟩, hr⟩ := hv a (List.mem_cons_of_mem _ ha) q hq
        obtain ⟨n1, hn1, _⟩ := map_eq_some (hg1.1 q) hn
        exact ⟨⟨n1, hn1⟩, hr⟩
      obtain ⟨m2, hrun2, hg2, hkeep2, hall2⟩ :=
        ihl m1 (hg1.wellFormed w) ((hg1.sharedOf ctx).trans hsh) hv1
      refine ⟨m2, ?_, hg1.trans_ hg2, fun q h => hkeep2 q (hkeep1 q h), ?_⟩
      · simp only [Outcome.forEach, hp, hrun1]
        exact hrun2
      · intro a ha q hq r hr
        rcases List.mem_cons.mp ha with rfl | ha
        · rw [hp] at hq; cases hq
          exact hkeep2 r (hall1 r hr)
        · exact hall2 a ha q hq r (hg1.reach hr)

/-- One call of `proj_assign_context` on a well-formed graph: it returns, keeps
the graph, keeps what was assigned and assigns everything reachable. -/
theorem assign_ok (hooks : Nat → Hook) (hk : HooksKeepRefs hooks) (ctx sh : Option Ptr)
    (rank : Ptr → Nat) :
    ∀ (fuel : Nat) (m : Mem) (p : Ptr), AltsWellFormed m rank → rank p < fuel →
      (∃ n, m.pj p = some n) → sharedOf m ctx = .ok sh →
      ∃ m1, proj_assign_context hooks fuel m (some p) ctx = .ok m1 ∧ SameGraph m m1 ∧
        (∀ q, Assigned ctx sh m q → Assigned ctx sh m1 q) ∧
        (∀ q, Reach m p q → Assigned ctx sh m1 q) := by
  intro fuel
  induction fuel with
  | zero => intro m p _ h; exact absurd h (Nat.not_lt_zero _)
  | succ fuel ih =>
    intro m p w hlt ⟨node, hn⟩ hsh
    -- the two assignments
    have hg1 := setPJ_sameGraph hn ctx sh
    have ha1 : Assigned ctx sh
        (m.setPJ p { node with host := { node.host with ctx := ctx }, shared_ctx := sh }) p :=
      ⟨_, setPJ_self _ _ _, rfl, rfl⟩
    -- the hook
    obtain ⟨m2, hm2, hg2, hk2⟩ : ∃ m2,
        (match node.host.reassign_context with
          | none => m.setPJ p { node with host := { node.host with ctx := ctx }, shared_ctx := sh }
          | some h => hooks h
              (m.setPJ p { node with host := { node.host with ctx := ctx }, shared_ctx := sh })
              p ctx) = m2 ∧
        SameGraph (m.setPJ p { node with host := { node.host with ctx := ctx }, shared_ctx := sh })
          m2 ∧
        KeepsRefs (m.setPJ p { node with host := { node.host with ctx := ctx }, shared_ctx := sh })
          m2 := by
      cases node.host.reassign_context with
      | none => exact ⟨_, rfl, SameGraph.rfl_ _, fun _ => rfl⟩
      | some h => exact ⟨_, rfl, (hk h _ p ctx).1, (hk h _ p ctx).2⟩
    have hg : SameGraph m m2 := hg1.trans_ hg2
    obtain ⟨node2, hn2, he2⟩ := map_eq_some (hg.1 p) hn
    have w2 : AltsWellFormed m2 rank := hg.wellFormed w
    have hv : ∀ alt ∈ node2.host.alternativeCoordinateOperations, ∀ q, alt.pj = some q →
        (∃ n, m2.pj q = some n) ∧ rank q < fuel := by
      intro alt halt q hq
      obtain ⟨hex, hr⟩ := w2 p node2 hn2 alt halt q hq
      exact ⟨hex, by omega⟩
    obtain ⟨m3, hrun, hg3, hkeep3, hall3⟩ :=
      assign_alts_ok hooks ctx sh rank fuel ih node2.host.alternativeCoordinateOperations m2 w2
        ((hg.sharedOf ctx).trans hsh) hv
    refine ⟨m3, ?_, hg.trans_ hg3, ?_, ?_⟩
    · simp only [proj_assign_context, hn, hsh, hm2, hn2]
      exact hrun
    · intro q a
      exact hkeep3 q (hk2.assigned (setPJ_assigned node ctx sh q a))
    · intro q r
      cases r with
      | here => exact hkeep3 p (hk2.assigned ha1)
      | step hn0 halt hq hr =>
        rw [hn] at hn0; cases hn0
        exact hall3 _ (by simpa [he2] using halt) _ hq q (hg.reach hr)

/-- C1: for a node `pj` of a well-formed graph (alternatives pointing at nodes,
without a cycle) and a context `ctx` (null, or a context whose shared-state
pointer is `sh`), `proj_assign_context(pj, ctx)` returns with any fuel above the
rank of `pj`, and afterwards `pj` and every node reachable from it through the
alternatives lists has context reference `ctx` and shared-state reference `sh`,
which is still the shared state of `ctx`, provided no hook overwrites those references. -/
theorem proj_assign_context_assigns_reachable (hooks : Nat → Hook) (m : Mem) (pj : Ptr)
    (ctx sh : Option Ptr) (rank : Ptr → Nat) (fuel : Nat)
    (hk : HooksKeepRefs hooks) (w : AltsWellFormed m rank) (hpj : ∃ n, m.pj pj = some n)
    (hctx : sharedOf m ctx = .ok sh) (hfuel : rank pj < fuel) :
    ∃ m1, proj_assign_context hooks fuel m (some pj) ctx = .ok m1 ∧
      sharedOf m1 ctx = .ok sh ∧
      ∀ q, Reach m pj q → ∃ n, m1.pj q = some n ∧ n.host.ctx = ctx ∧ n.shared_ctx = sh := by
  obtain ⟨m1, hrun, hg, _, hall⟩ := assign_ok hooks hk ctx sh rank fuel m pj w hfuel hpj hctx
  exact ⟨m1, hrun, (hg.sharedOf ctx).trans hctx, hall⟩

theorem demoHooks_keep : HooksKeepRefs demoHooks := by
  intro _ m p _
  unfold demoHooks
  cases hn : m.pj p with
  | none => exact ⟨SameGraph.rfl_ m, fun _ => rfl⟩
  | some n =>
    refine ⟨⟨fun q => ?_, fun _ => rfl⟩, fun q => ?_⟩
    · by_cases hq : q = p
      · subst hq; simp [Mem.setPJ, hn]
      · simp [Mem.setPJ, hq]
    · by_cases hq : q = p
      · subst hq; simp [Mem.setPJ, hn]
      · simp [Mem.setPJ, hq]

theorem demoTree_wellFormed : AltsWellFormed demoTree (fun p => 3 - p) := by
  intro p n hn alt halt q hq
  match p with
  | 0 =>
    simp only [demoTree, Option.some.injEq] at hn
    subst hn
    simp only [demoNode, List.map, List.mem_cons, List.mem_singleton, List.not_mem_nil,
      or_false] at halt
    rcases halt with rfl | rfl | rfl <;> simp at hq <;> subst hq <;> simp [demoTree]
  | 1 =>
    simp only [demoTree, Option.some.injEq] at hn
    subst hn
    simp only [demoNode, List.map, List.mem_cons, List.mem_singleton, List.not_mem_nil,
      or_false] at halt
    subst halt
    simp at hq
    subst hq
    simp [demoTree]
  | 2 =>
    simp only [demoTree, Option.some.injEq] at hn
    subst hn
    simp [demoNode] at halt
  | 3 =>
    simp only [demoTree, Option.some.injEq] at hn
    subst hn
    simp [demoNode] at halt
  | k + 4 => simp [demoTree] at hn

theorem proj_assign_context_assigns_reachable_witness :
    ∃ m1, proj_assign_context demoHooks 4 demoTree (some 0) (some 11) = .ok m1 ∧
      sharedOf m1 (some 11) = .ok (some 21) ∧
      ∀ q, Reach demoTree 0 q →
        ∃ n, m1.pj q = some n ∧ n.host.ctx = some 11 ∧ n.shared_ctx = some 21 :=
  proj_assign_context_assigns_reachable demoHooks demoTree 0 (some 11) (some 21)
    (fun p => 3 - p) 4 demoHooks_keep demoTree_wellFormed ⟨_, rfl⟩ rfl (by decide)

theorem pj_scan_local_fold (P : PJ) (s : PJscan) :
    pj_scan_local P s =
      (if (P.slots.foldl scanSlot (s, false)).2 then
        { (P.slots.foldl scanSlot (s, false)).1 with
          files := insert P.host.file (P.slots.foldl scanSlot (s, false)).1.files }
      else (P.slots.foldl scanSlot (s, false)).1) := rfl

theorem foldl_scanSlot (l : List String) :
    ∀ r : PJscan × Bool,
      (l.foldl scanSlot r).1.functions = r.1.functions ∪ (l.filter slotSet).toFinset ∧
      (l.foldl scanSlot r).1.files = r.1.files ∧
      (l.foldl scanSlot r).2 = (r.2 || l.any slotSet) := by
  induction l with
  | nil => intro r; simp
  | cons k l ih =>
    intro r
    obtain ⟨h1, h2, h3⟩ := ih (scanSlot r k)
    simp only [List.foldl_cons, h1, h2, h3]
    by_cases hk : slotSet k
    · simp only [scanSlot, hk, if_true, List.filter_cons_of_pos, List.toFinset_cons, List.any_cons,
        Bool.true_or, Bool.or_true, and_true]
      ext x
      simp only [Finset.mem_union, Finset.mem_insert]
      tauto
    · simp [scanSlot, hk]

theorem pj_scan_local_eq (P : PJ) (s : PJscan) :
    pj_scan_local P s = s.union ⟨P.kernels, P.kernelFiles⟩ := by
  obtain ⟨h1, h2, h3⟩ := foldl_scanSlot P.slots (s, false)
  rw [pj_scan_local_fold, h3]
  simp only [Bool.false_or, PJscan.union, PJ.kernels, PJ.kernelFiles, PJ.hasKernel]
  by_cases ha : P.slots.any slotSet
  · simp only [ha, if_true, h1, h2, PJscan.mk.injEq, true_and]
    ext x
    simp only [Finset.mem_insert, Finset.mem_union, Finset.mem_singleton]
    tauto
  · simp only [ha, if_false, Bool.false_eq_true, Finset.union_empty]
    cases hr : List.foldl scanSlot (s, false) P.slots with
    | mk a b =>
      rw [hr] at h1 h2
      cases a
      simp_all

theorem PJscan.union_empty_ (s : PJscan) : s.union PJscan.empty = s := by
  cases s; simp [PJscan.union, PJscan.empty]

theorem PJscan.empty_union_ (s : PJscan) : PJscan.empty.union s = s := by
  cases s; simp [PJscan.union, PJscan.empty]

theorem hostScan_subLocal (recursive : Mem → Option Ptr → PJscan → Outcome PJscan) {m : Mem}
    {sub : Option Ptr} {n : PJ} (h : SubLocal m sub n) (s : PJscan) :
    hostScan recursive m sub s = .ok (s.union n.localPart) := by
  obtain ⟨q, rfl, hn, hs | hs⟩ := h
  · simp [hostScan, hn, hs, PJ.localPart, pj_scan_local_eq]
  · simp [hostScan, hn, hs, PJ.localPart, pj_scan_nop, PJscan.union_empty_]

theorem kernels_of_not_hasKernel {n : PJ} (h : n.hasKernel = false) : n.kernels = ∅ := by
  simp only [PJ.hasKernel, List.any_eq_false] at h
  simp only [PJ.kernels, List.toFinset_eq_empty_iff, List.filter_eq_nil_iff]
  exact h

theorem localPart_of_not_hasKernel {n : PJ} (h : n.hasKernel = false) :
    n.localPart = PJscan.empty := by
  unfold PJ.localPart
  split
  · simp [kernels_of_not_hasKernel h, PJ.kernelFiles, h, PJscan.empty]
  · rfl

theorem localPart_of_hasKernel {n : PJ} (hs : n.host.scan = some ScanFn.pj_scan_local)
    (h : n.hasKernel = true) : n.localPart = ⟨n.kernels, {n.host.file}⟩ := by
  simp [PJ.localPart, hs, PJ.kernelFiles, h]

/-- C2: on a root whose six sub-operations are present and scan with
`pj_scan_local` or `pj_scan_nop`, `pj_scan_recursive` started on the empty result
returns (with any fuel) exactly the non-empty kernel slots of the root and of the
locally scanned sub-operations, and the source files of those of these nodes that
have a non-empty slot; with kernels only on the locally scanned Cartesian and
Helmert sub-operations this is their kernels and their two files, and with no
kernel anywhere it is the empty result. -/
theorem pj_scan_recursive_exact (fuel : Nat) (m : Mem) (p : Ptr) (root a c w h hg vg : PJ)
    (hroot : m.pj p = some root)
    (ha : SubLocal m root.axisswap a) (hc : SubLocal m root.cart c)
    (hw : SubLocal m root.cart_wgs84 w) (hh : SubLocal m root.helmert h)
    (hhg : SubLocal m root.hgridshift hg) (hvg : SubLocal m root.vgridshift vg) :
    pj_scan_recursive (fuel + 1) m (some p) PJscan.empty =
      .ok ⟨root.kernels ∪ a.localPart.functions ∪ c.localPart.functions ∪ w.localPart.functions
            ∪ h.localPart.functions ∪ hg.localPart.functions ∪ vg.localPart.functions,
          root.kernelFiles ∪ a.localPart.files ∪ c.localPart.files ∪ w.localPart.files
            ∪ h.localPart.files ∪ hg.localPart.files ∪ vg.localPart.files⟩ ∧
    (root.hasKernel = false → a.hasKernel = false → w.hasKernel = false →
      hg.hasKernel = false → vg.hasKernel = false →
      c.host.scan = some ScanFn.pj_scan_local → c.hasKernel = true →
      h.host.scan = some ScanFn.pj_scan_local → h.hasKernel = true →
      pj_scan_recursive (fuel + 1) m (some p) PJscan.empty =
        .ok ⟨c.kernels ∪ h.kernels, {c.host.file, h.host.file}⟩) ∧
    (root.hasKernel = false → a.hasKernel = false → c.hasKernel = false →
      w.hasKernel = false → h.hasKernel = false → hg.hasKernel = false →
      vg.hasKernel = false →
      pj_scan_recursive (fuel + 1) m (some p) PJscan.empty = .ok PJscan.empty) := by
  have key : pj_scan_recursive (fuel + 1) m (some p) PJscan.empty =
      .ok (((((((PJscan.empty.union ⟨root.kernels, root.kernelFiles⟩).union a.localPart).union
        c.localPart).union w.localPart).union h.localPart).union hg.localPart).union
        vg.localPart) := by
    simp only [pj_scan_recursive, hroot, pj_scan_local_eq, hostScan_subLocal _ ha,
      hostScan_subLocal _ hc, hostScan_subLocal _ hw, hostScan_subLocal _ hh,
      hostScan_subLocal _ hhg, hostScan_subLocal _ hvg, Outcome.andThen]
  refine ⟨?_, ?_, ?_⟩
  · rw [key]; simp [PJscan.union, PJscan.empty]
  · intro r0 a0 w0 hg0 vg0 cs c1 hs h1
    rw [key, localPart_of_not_hasKernel a0, localPart_of_not_hasKernel w0,
      localPart_of_not_hasKernel hg0, localPart_of_not_hasKernel vg0,
      localPart_of_hasKernel cs c1, localPart_of_hasKernel hs h1]
    simp only [PJscan.union_empty_, PJscan.empty_union_, kernels_of_not_hasKernel r0,
      PJ.kernelFiles, r0]
    simp only [PJscan.union, PJscan.empty, Bool.false_eq_true, if_false, Finset.empty_union,
      Outcome.ok.injEq, PJscan.mk.injEq, true_and]
    ext x
    simp
  · intro r0 a0 c0 w0 h0 hg0 vg0
    rw [key, localPart_of_not_hasKernel a0, localPart_of_not_hasKernel w0,
      localPart_of_not_hasKernel hg0, localPart_of_not_hasKernel vg0,
      localPart_of_not_hasKernel c0, localPart_of_not_hasKernel h0]
    simp [PJscan.union, PJscan.empty, kernels_of_not_hasKernel r0, PJ.kernelFiles, r0]

theorem pj_scan_recursive_exact_witness :
    pj_scan_recursive 1 demoPipeline (some 0) PJscan.empty =
      .ok ⟨demoCart.kernels ∪ demoHelmert.kernels, {demoCart.host.file, demoHelmert.host.file}⟩ :=
  (pj_scan_recursive_exact 0 demoPipeline 0 demoRoot demoNop demoCart demoPlain demoHelmert
    demoPlain demoNop rfl ⟨1, rfl, rfl, Or.inr rfl⟩ ⟨2, rfl, rfl, Or.inl rfl⟩
    ⟨3, rfl, rfl, Or.inl rfl⟩ ⟨4, rfl, rfl, Or.inl rfl⟩ ⟨5, rfl, rfl, Or.inl rfl⟩
    ⟨6, rfl, rfl, Or.inr rfl⟩).2.1 (by decide) (by decide) (by decide) (by decide) (by decide)
    rfl (by decide) rfl (by decide)

theorem set_search_paths_paths (this : Ptr) (c : pj_ctx) (ps : List String) :
    (c.set_search_paths this ps).search_paths = ps := by
  unfold pj_ctx.set_search_paths
  cases ps <;> rfl

theorem set_search_paths_view (this : Ptr) (c : pj_ctx) (ps : List String) :
    (c.set_search_paths this ps).view = (List.range ps.length).map (fun i => CStr.mk this i) := by
  unfold pj_ctx.set_search_paths
  cases ps <;> rfl

theorem setCtx_self (m : Mem) (p : Ptr) (c : pj_ctx) : (m.setCtx p c).ctx p = some c := by
  simp [Mem.setCtx]

theorem setCtx_other (m : Mem) {p q : Ptr} (c : pj_ctx) (h : q ≠ p) :
    (m.setCtx p c).ctx q = m.ctx q := by
  simp [Mem.setCtx, h]

/-- C3: after `set_search_paths(paths)` on a context, with `N` the number of
paths (zero included): the context's search-path sequence is `paths`, its view
array has exactly `N` entries, and the `i`-th entry points at the context's own
`i`-th path string, whose contents are the `i`-th input. -/
theorem set_search_paths_view_matches (m : Mem) (this : Ptr) (c : pj_ctx) (paths : List String)
    (hc : m.ctx this = some c) :
    ∃ m1 c1, set_search_paths m this paths = .ok m1 ∧ m1.ctx this = some c1 ∧
      c1.search_paths = paths ∧ c1.view.length = paths.length ∧
      ∀ i, i < paths.length →
        ∃ e, c1.view[i]? = some e ∧ e.owner = this ∧ e.index = i ∧
          c1.search_paths[i]? = paths[i]? ∧ e.deref m1 = paths[i]? ∧ (e.deref m1).isSome := by
  refine ⟨m.setCtx this (c.set_search_paths this paths), c.set_search_paths this paths,
    by simp only [set_search_paths, hc], setCtx_self _ _ _,
    set_search_paths_paths _ _ _, by simp [set_search_paths_view], ?_⟩
  intro i hi
  refine ⟨CStr.mk this i, by simp [set_search_paths_view, hi], rfl, rfl,
    by rw [set_search_paths_paths], ?_, ?_⟩
  · simp [CStr.deref, setCtx_self, set_search_paths_paths]
  · simp [CStr.deref, setCtx_self, set_search_paths_paths, hi]

theorem set_search_paths_view_matches_witness :
    ∃ m1 c1, set_search_paths demoCtxMem 0 ["/a", "/b", "/c"] = .ok m1 ∧ m1.ctx 0 = some c1 ∧
      c1.search_paths = ["/a", "/b", "/c"] ∧ c1.view.length = ["/a", "/b", "/c"].length ∧
      ∀ i, i < ["/a", "/b", "/c"].length →
        ∃ e, c1.view[i]? = some e ∧ e.owner = 0 ∧ e.index = i ∧
          c1.search_paths[i]? = ["/a", "/b", "/c"][i]? ∧ e.deref m1 = ["/a", "/b", "/c"][i]? ∧
          (e.deref m1).isSome :=
  set_search_paths_view_matches demoCtxMem 0 _ ["/a", "/b", "/c"] rfl

theorem set_search_paths_eq (this : Ptr) (c : pj_ctx) (ps : List String) :
    c.set_search_paths this ps =
      { c with search_paths := ps, c_compat_paths := (c.set_search_paths this ps).c_compat_paths } := by
  unfold pj_ctx.set_search_paths
  cases ps <;> rfl

theorem fresh_shared_lt {m : Mem} (hf : m.Fresh) {a : Ptr} {v : pj_ctx_shared}
    (h : m.shared a = some v) : a < m.brk := by
  by_contra hn
  have := (hf a (Nat.le_of_not_lt hn)).2.2.1
  rw [h] at this
  cases this

theorem fresh_cpp_lt {m : Mem} (hf : m.Fresh) {a : Ptr} {v : projCppContext}
    (h : m.cpp a = some v) : a < m.brk := by
  by_contra hn
  have := (hf a (Nat.le_of_not_lt hn)).2.2.2
  rw [h] at this
  cases this

theorem fresh_ctx_lt {m : Mem} (hf : m.Fresh) {a : Ptr} {v : pj_ctx}
    (h : m.ctx a = some v) : a < m.brk := by
  by_contra hn
  have := (hf a (Nat.le_of_not_lt hn)).2.1
  rw [h] at this
  cases this

theorem clone_spec (create : Mem → Outcome (Option Ptr × Mem)) {m : Mem} {c : Ptr} {co : pj_ctx}
    (hf : m.Fresh) (hv : CtxValid m c co) :
    ∃ m1 c2 s2 os v,
      proj_context_clone create m (some c) = .ok (some m.brk, m1) ∧
      m1.ctx m.brk = some c2 ∧ (∀ a, a ≠ m.brk → m1.ctx a = m.ctx a) ∧
      c2 = { co with cpp_context := c2.cpp_context, c_compat_paths := c2.c_compat_paths,
                     shared := c2.shared } ∧
      c2.view = (List.range co.search_paths.length).map (fun i => CStr.mk m.brk i) ∧
      co.shared = some os ∧ m.shared os = some v ∧ c2.shared = some s2 ∧ s2 ≠ os ∧
      m.shared s2 = none ∧ m1.shared s2 = some v ∧ (∀ a, a ≠ s2 → m1.shared a = m.shared a) ∧
      (co.cpp_context = none → c2.cpp_context = none ∧ m1.cpp = m.cpp) ∧
      (∀ x obj, co.cpp_context = some x → m.cpp x = some obj →
        ∃ x2, c2.cpp_context = some x2 ∧ m.cpp x2 = none ∧
          m1.cpp x2 = some { obj with ctx := m.brk } ∧ ∀ a, a ≠ x2 → m1.cpp a = m.cpp a) := by
  obtain ⟨hc, ⟨os, v, hos, hvs⟩, hcpp, _⟩ := hv
  have hlt : os < m.brk := fresh_shared_lt hf hvs
  cases hx : co.cpp_context with
  | none =>
    have h1 : os ≠ m.brk + 1 := Nat.ne_of_lt (Nat.lt_succ_of_lt hlt)
    refine ⟨?m1, ?c2, m.brk + 1, os, v, ?run, ?_, ?_, ?_, ?_, hos, hvs, ?_, ?_, ?_, ?_, ?_, ?_, ?_⟩
    case run =>
      simp only [proj_context_clone, pj_ctx.copy, hc, pj_ctx.copyWith, hx, cloneCppContext, hos,
        svm_new, Mem.setShared, h1, if_false, hvs]
      exact rfl
    pick_goal 2
    · exact setCtx_self _ _ _
    · intro a ha; exact setCtx_other _ _ ha
    · rw [set_search_paths_eq]
    · exact set_search_paths_view _ _ _
    · rfl
    · exact h1.symm
    · exact (hf _ (Nat.le_succ _)).2.2.1
    · simp [Mem.setCtx]
    · intro a ha; simp [Mem.setCtx, ha]
    · intro _; exact ⟨by rw [set_search_paths_eq], rfl⟩
    · intro x obj hx2; cases hx2
  | some x =>
    obtain ⟨obj, hobj⟩ := hcpp x hx
    have h1 : os ≠ m.brk + 1 + 1 := Nat.ne_of_lt (Nat.lt_succ_of_lt (Nat.lt_succ_of_lt hlt))
    have h2 : x ≠ m.brk + 1 := Nat.ne_of_lt (Nat.lt_succ_of_lt (fresh_cpp_lt hf hobj))
    refine ⟨?n1, ?d2, m.brk + 1 + 1, os, v, ?go, ?_, ?_, ?_, ?_, hos, hvs, ?_, ?_, ?_, ?_, ?_, ?_,
      ?_⟩
    case go =>
      simp only [proj_context_clone, pj_ctx.copy, hc, pj_ctx.copyWith, hx, cloneCppContext,
        projCppContext.clone, hobj, hos, svm_new, Mem.setShared, Mem.setCpp, h1, if_false, hvs]
      exact rfl
    pick_goal 2
    · exact setCtx_self _ _ _
    · intro a ha; exact setCtx_other _ _ ha
    · rw [set_search_paths_eq]
    · exact set_search_paths_view _ _ _
    · rfl
    · exact h1.symm
    · exact (hf _ (Nat.le_succ_of_le (Nat.le_succ _))).2.2.1
    · simp [Mem.setCtx]
    · intro a ha; simp [Mem.setCtx, ha]
    · intro h; cases h
    · intro x1 obj1 hx1 hobj1
      cases hx1
      rw [hobj] at hobj1
      cases hobj1
      refine ⟨m.brk + 1, by rw [set_search_paths_eq], (hf _ (Nat.le_succ _)).2.2.2,
        by simp [Mem.setCtx], ?_⟩
      intro a ha
      simp [Mem.setCtx, ha]

theorem deref_of_ctx_eq {m m1 : Mem} {e : CStr} (h : m1.ctx e.owner = m.ctx e.owner) :
    e.deref m1 = e.deref m := by
  simp only [CStr.deref, h]

/-- C4: for a context `c` of a well-formed memory, the clone `c2` of `c` exists,
and after `set_search_paths` on `c2` with any new sequence the object `c` (its
search paths and its view array with them) is as before and every entry of its
view array points at the same string contents as before; the clone's view
entries, before and after, point into the clone's own strings, not into those of `c`. -/
theorem clone_set_search_paths_no_alias (create : Mem → Outcome (Option Ptr × Mem)) (m : Mem)
    (c : Ptr) (co : pj_ctx) (paths : List String) (hf : m.Fresh) (hv : CtxValid m c co) :
    ∃ c2 m1 m2 c2a c2b,
      proj_context_clone create m (some c) = .ok (some c2, m1) ∧
      set_search_paths m1 c2 paths = .ok m2 ∧
      m1.ctx c = some co ∧ m2.ctx c = some co ∧
      (∀ e ∈ co.view, e.deref m1 = e.deref m ∧ e.deref m2 = e.deref m) ∧
      c2 ≠ c ∧ m1.ctx c2 = some c2a ∧ m2.ctx c2 = some c2b ∧
      c2a.search_paths = co.search_paths ∧ c2a.view.length = co.search_paths.length ∧
      c2b.search_paths = paths ∧
      (∀ e ∈ c2a.view, e.owner = c2 ∧ e.owner ≠ c) ∧
      (∀ e ∈ c2b.view, e.owner = c2 ∧ e.owner ≠ c) := by
  obtain ⟨m1, c2a, s2, os, v, hrun, hc2, hframe, heq, hview, -⟩ := clone_spec create hf hv
  have hne : m.brk ≠ c := Nat.ne_of_gt (fresh_ctx_lt hf hv.1)
  have h1c : m1.ctx c = some co := (hframe c hne.symm).trans hv.1
  have h2c : (m1.setCtx m.brk (c2a.set_search_paths m.brk paths)).ctx c = some co :=
    (setCtx_other _ _ hne.symm).trans h1c
  refine ⟨m.brk, m1, m1.setCtx m.brk (c2a.set_search_paths m.brk paths), c2a,
    c2a.set_search_paths m.brk paths, hrun, by simp only [set_search_paths, hc2], h1c, h2c, ?_,
    hne, hc2, setCtx_self _ _ _, ?_, ?_, set_search_paths_paths _ _ _, ?_, ?_⟩
  · intro e he
    have ho := hv.2.2.2 e he
    exact ⟨deref_of_ctx_eq (by rw [ho, h1c, hv.1]), deref_of_ctx_eq (by rw [ho, h2c, hv.1])⟩
  · rw [heq]
  · rw [hview]; simp
  · intro e he
    rw [hview] at he
    obtain ⟨i, _, rfl⟩ := List.mem_map.mp he
    exact ⟨rfl, hne⟩
  · intro e he
    rw [set_search_paths_view] at he
    obtain ⟨i, _, rfl⟩ := List.mem_map.mp he
    exact ⟨rfl, hne⟩

theorem demoCtxMem_fresh : demoCtxMem.Fresh := by
  intro a ha
  cases a with
  | zero => exact absurd ha (by decide)
  | succ k => exact ⟨rfl, rfl, rfl, rfl⟩

theorem demoCtxMem_valid : CtxValid demoCtxMem 0 demoCtx0 := by
  refine ⟨rfl, ⟨0, ⟨[7]⟩, rfl, rfl⟩, ?_, ?_⟩
  · intro x hx
    cases hx
    exact ⟨_, rfl⟩
  · intro e he
    simp only [pj_ctx.view, demoCtx0, demoCtx, List.mem_cons, List.mem_singleton,
      List.not_mem_nil, or_false] at he
    rcases he with rfl | rfl <;> rfl

theorem clone_set_search_paths_no_alias_witness :
    ∃ c2 m1 m2 c2a c2b,
      proj_context_clone demoCreate demoCtxMem (some 0) = .ok (some c2, m1) ∧
      set_search_paths m1 c2 ["/tmp"] = .ok m2 ∧
      m1.ctx 0 = some demoCtx0 ∧
      m2.ctx 0 = some demoCtx0 ∧
      (∀ e ∈ demoCtx0.view,
        e.deref m1 = e.deref demoCtxMem ∧ e.deref m2 = e.deref demoCtxMem) ∧
      c2 ≠ 0 ∧ m1.ctx c2 = some c2a ∧ m2.ctx c2 = some c2b ∧
      c2a.search_paths = demoCtx0.search_paths ∧
      c2a.view.length = demoCtx0.search_paths.length ∧
      c2b.search_paths = ["/tmp"] ∧
      (∀ e ∈ c2a.view, e.owner = c2 ∧ e.owner ≠ 0) ∧
      (∀ e ∈ c2b.view, e.owner = c2 ∧ e.owner ≠ 0) :=
  clone_set_search_paths_no_alias demoCreate demoCtxMem 0 _ ["/tmp"] demoCtxMem_fresh
    demoCtxMem_valid

/-- C5: for a context `c` of a well-formed memory, the clone of `c` exists as a
context of its own (at an address that held no context before, other than the
address of `c`, with `c` left as it was) and has the value `c` has in each
configuration attribute: debug level, logger and its data, legacy-init-rules
flag, epsg-file-exists cache, CA bundle path, file-finder callback and data,
custom virtual-filesystem name, user-writable directory, network settings (with
the ini-file flag and the endpoint), grid-chunk-cache settings,
default-algorithm selector and search-path sequence. -/
theorem clone_copies_configuration (create : Mem → Outcome (Option Ptr × Mem)) (m : Mem)
    (c : Ptr) (co : pj_ctx) (hf : m.Fresh) (hv : CtxValid m c co) :
    ∃ c2 m1 c2o,
      proj_context_clone create m (some c) = .ok (some c2, m1) ∧ m1.ctx c2 = some c2o ∧
      c2 ≠ c ∧ m.ctx c2 = none ∧ m1.ctx c = some co ∧
      c2o.allocator = co.allocator ∧
      c2o.debug_level = co.debug_level ∧ c2o.logger = co.logger ∧
      c2o.logger_app_data = co.logger_app_data ∧
      c2o.use_proj4_init_rules = co.use_proj4_init_rules ∧
      c2o.epsg_file_exists = co.epsg_file_exists ∧ c2o.ca_bundle_path = co.ca_bundle_path ∧
      c2o.env_var_proj_lib = co.env_var_proj_lib ∧ c2o.file_finder = co.file_finder ∧
      c2o.file_finder_user_data = co.file_finder_user_data ∧
      c2o.custom_sqlite3_vfs_name = co.custom_sqlite3_vfs_name ∧
      c2o.user_writable_directory = co.user_writable_directory ∧
      c2o.iniFileLoaded = co.iniFileLoaded ∧ c2o.endpoint = co.endpoint ∧
      c2o.networking = co.networking ∧ c2o.gridChunkCache = co.gridChunkCache ∧
      c2o.defaultTmercAlgo = co.defaultTmercAlgo ∧ c2o.search_paths = co.search_paths := by
  obtain ⟨m1, c2o, s2, os, v, hrun, hc2, hframe, heq, -⟩ := clone_spec create hf hv
  have hne : m.brk ≠ c := Nat.ne_of_gt (fresh_ctx_lt hf hv.1)
  exact ⟨m.brk, m1, c2o, hrun, hc2, hne, (hf _ (Nat.le_refl _)).2.1,
    (hframe c hne.symm).trans hv.1, by rw [heq], by rw [heq], by rw [heq],
    by rw [heq], by rw [heq],
    by rw [heq], by rw [heq],
    by rw [heq], by rw [heq],
    by rw [heq], by rw [heq],
    by rw [heq], by rw [heq],
    by rw [heq], by rw [heq],
    by rw [heq], by rw [heq],
    by rw [heq]⟩

theorem demoRichMem_fresh : demoRichMem.Fresh := by
  intro a ha
  match a with
  | 0 => exact absurd ha (by decide)
  | 1 => exact absurd ha (by decide)
  | 2 => exact absurd ha (by decide)
  | 3 => exact absurd ha (by decide)
  | k + 4 => exact ⟨rfl, rfl, rfl, rfl⟩

theorem demoRichMem_valid : CtxValid demoRichMem 3 demoRichCtx := by
  refine ⟨rfl, ⟨2, ⟨[4, 2]⟩, rfl, rfl⟩, ?_, ?_⟩
  · intro x hx
    cases hx
    exact ⟨_, rfl⟩
  · intro e he
    simp only [pj_ctx.view, demoRichCtx, List.mem_cons, List.mem_singleton,
      List.not_mem_nil, or_false] at he
    rcases he with rfl | rfl | rfl <;> rfl

theorem clone_copies_configuration_witness :
    ∃ c2 m1 c2o,
      proj_context_clone demoCreate demoRichMem (some 3) = .ok (some c2, m1) ∧
      m1.ctx c2 = some c2o ∧
      c2 ≠ 3 ∧ demoRichMem.ctx c2 = none ∧ m1.ctx 3 = some demoRichCtx ∧
      c2o.allocator = 6 ∧
      c2o.debug_level = -2 ∧ c2o.logger = some 7 ∧
      c2o.logger_app_data = some 8 ∧
      c2o.use_proj4_init_rules = 1 ∧
      c2o.epsg_file_exists = 0 ∧ c2o.ca_bundle_path = "/etc/ssl/ca.pem" ∧
      c2o.env_var_proj_lib = "/opt/proj/share" ∧ c2o.file_finder = some 9 ∧
      c2o.file_finder_user_data = some 10 ∧
      c2o.custom_sqlite3_vfs_name = "memvfs" ∧
      c2o.user_writable_directory = "/home/u/.local/share/proj" ∧
      c2o.iniFileLoaded = true ∧ c2o.endpoint = "https://cdn.proj.org" ∧
      c2o.networking = ⟨5⟩ ∧ c2o.gridChunkCache = ⟨6⟩ ∧
      c2o.defaultTmercAlgo = ⟨1⟩ ∧
      c2o.search_paths = ["/usr/share/proj", "/opt/grids", "/tmp/proj"] :=
  clone_copies_configuration demoCreate demoRichMem 3 demoRichCtx demoRichMem_fresh
    demoRichMem_valid

/-- C6: for a context `c` of a well-formed memory, the clone of `c` exists and
owns a shared block at an address that held no block before and differs from
the address of the block of `c`; both blocks hold the contents the block of `c`
had when cloning, and a later write to either block leaves the other as it is. -/
theorem clone_shared_state_not_aliased (create : Mem → Outcome (Option Ptr × Mem)) (m : Mem)
    (c : Ptr) (co : pj_ctx) (hf : m.Fresh) (hv : CtxValid m c co) :
    ∃ c2 m1 c2o s2 os v,
      proj_context_clone create m (some c) = .ok (some c2, m1) ∧ m1.ctx c2 = some c2o ∧
      m1.ctx c = some co ∧ co.shared = some os ∧ c2o.shared = some s2 ∧ s2 ≠ os ∧
      m.shared s2 = none ∧ m.shared os = some v ∧ m1.shared s2 = some v ∧
      m1.shared os = some v ∧
      ∀ w, (m1.setShared s2 w).shared os = some v ∧ (m1.setShared os w).shared s2 = some v := by
  obtain ⟨m1, c2o, s2, os, v, hrun, hc2, hframe, -, -, hos, hvs, hs2, hne, hnew, hv2, hsf, -⟩ :=
    clone_spec create hf hv
  have hc : m.brk ≠ c := Nat.ne_of_gt (fresh_ctx_lt hf hv.1)
  have h1 : m1.shared os = some v := (hsf os hne.symm).trans hvs
  refine ⟨m.brk, m1, c2o, s2, os, v, hrun, hc2, (hframe c hc.symm).trans hv.1, hos, hs2, hne,
    hnew, hvs, hv2, h1, ?_⟩
  intro w
  exact ⟨by simp [Mem.setShared, hne.symm, h1], by simp [Mem.setShared, hne, hv2]⟩

theorem clone_shared_state_not_aliased_witness :
    ∃ c2 m1 c2o s2 os v,
      proj_context_clone demoCreate demoCtxMem (some 0) = .ok (some c2, m1) ∧
      m1.ctx c2 = some c2o ∧ m1.ctx 0 = some demoCtx0 ∧ demoCtx0.shared = some os ∧
      c2o.shared = some s2 ∧ s2 ≠ os ∧ demoCtxMem.shared s2 = none ∧
      demoCtxMem.shared os = some v ∧ m1.shared s2 = some v ∧ m1.shared os = some v ∧
      ∀ w, (m1.setShared s2 w).shared os = some v ∧ (m1.setShared os w).shared s2 = some v :=
  clone_shared_state_not_aliased demoCreate demoCtxMem 0 demoCtx0 demoCtxMem_fresh
    demoCtxMem_valid

theorem createDefault_level (E : Externals) (m : Mem) (a : Option Ptr) :
    (pj_ctx.createDefault E m a).1.debug_level =
      (match E.getenv "PROJ_DEBUG" with
        | none => E.PJ_LOG_ERROR
        | some projDebug =>
          if E.atoi projDebug ≥ -E.PJ_LOG_TRACE then E.atoi projDebug else E.PJ_LOG_TRACE) := by
  unfold pj_ctx.createDefault
  cases E.getenv "PROJ_DEBUG" with
  | none => rfl
  | some s =>
    by_cases h : E.atoi s ≥ -E.PJ_LOG_TRACE
    · simp only [h, if_true]
    · simp only [h, if_false]

theorem libc_atoi_inRange : AtoiInRange libc_atoi := by
  intro s hlo hhi
  unfold libc_atoi saturateLong toInt32 LONG_MIN LONG_MAX
  unfold INT_MIN at hlo
  unfold INT_MAX at hhi
  rw [if_neg (by omega), if_neg (by omega)]
  omega

/-- C7, as the claim states it, fails: `PROJ_DEBUG=-4294967295` denotes an
integer below `-PJ_LOG_TRACE`, yet `atoi` returns 1 for it (the low 32 bits) and
the debug level of the context `createDefault` returns is 1, not `PJ_LOG_TRACE`. -/
theorem createDefault_below_int_range_not_clamped :
    decimalValue "-4294967295" = -4294967295 ∧
    decimalValue "-4294967295" < -(projExternals (envWith (some "-4294967295"))).PJ_LOG_TRACE ∧
    (pj_ctx.createDefault (projExternals (envWith (some "-4294967295"))) demoCtxMem
      none).1.debug_level = 1 ∧
    (pj_ctx.createDefault (projExternals (envWith (some "-4294967295"))) demoCtxMem
      none).1.debug_level ≠ (projExternals (envWith (some "-4294967295"))).PJ_LOG_TRACE := by
  decide

/-- C7, amended: when `PROJ_DEBUG` is present and the integer `v` it denotes is
in the range of `int` and below `-PJ_LOG_TRACE`, `createDefault` yields a context
with debug level `PJ_LOG_TRACE`, which is not `v` (the level `PJ_LOG_TRACE` being
non-negative, `atoi` returning the value of a string that is in the range of `int`). -/
theorem createDefault_clamps_below (E : Externals) (m : Mem) (a : Option Ptr) (s : String)
    (hatoi : AtoiInRange E.atoi) (h0 : 0 ≤ E.PJ_LOG_TRACE)
    (henv : E.getenv "PROJ_DEBUG" = some s) (hmin : INT_MIN ≤ decimalValue s)
    (hlow : decimalValue s < -E.PJ_LOG_TRACE) :
    (pj_ctx.createDefault E m a).1.debug_level = E.PJ_LOG_TRACE ∧
      (pj_ctx.createDefault E m a).1.debug_level ≠ decimalValue s := by
  have hv : E.atoi s = decimalValue s := hatoi s hmin (by unfold INT_MAX; omega)
  have h : (pj_ctx.createDefault E m a).1.debug_level = E.PJ_LOG_TRACE := by
    rw [createDefault_level, henv]
    simp only [hv, ge_iff_le, not_le.mpr hlow, if_false]
  refine ⟨h, ?_⟩
  rw [h]
  omega

theorem createDefault_clamps_below_witness :
    (pj_ctx.createDefault (projExternals (envWith (some "-2147483648"))) demoCtxMem
        none).1.debug_level = 3 ∧
      (pj_ctx.createDefault (projExternals (envWith (some "-2147483648"))) demoCtxMem
        none).1.debug_level ≠ decimalValue "-2147483648" :=
  createDefault_clamps_below (projExternals (envWith (some "-2147483648"))) demoCtxMem none
    "-2147483648" libc_atoi_inRange (by decide) rfl (by decide) (by decide)

/-- C8, as the claim states it, fails: with `PROJ_DEBUG=10` and the levels of
`proj.h` the debug level of the context `createDefault` returns is 10, above
`PJ_LOG_TRACE`. -/
theorem createDefault_level_above_trace :
    ¬ ((pj_ctx.createDefault (projExternals (envWith (some "10"))) demoCtxMem none).1.debug_level
        ≤ (projExternals (envWith (some "10"))).PJ_LOG_TRACE) := by
  decide

/-- C8, amended: the debug level is bounded from below only. With
`0 ≤ PJ_LOG_TRACE ≤ INT_MAX` and `PJ_LOG_ERROR ≤ PJ_LOG_TRACE`: when `PROJ_DEBUG`
is absent, or the integer `v` it denotes is in the range of `int` and at most
`PJ_LOG_TRACE`, the debug level of the context `createDefault` returns does not
exceed `PJ_LOG_TRACE`; when `PJ_LOG_TRACE < v ≤ INT_MAX`, the debug level is `v`
and exceeds `PJ_LOG_TRACE`. -/
theorem createDefault_level_bounded_below_only (E : Externals) (m : Mem) (a : Option Ptr)
    (hatoi : AtoiInRange E.atoi) (h0 : 0 ≤ E.PJ_LOG_TRACE)
    (h1 : E.PJ_LOG_ERROR ≤ E.PJ_LOG_TRACE) (h2 : E.PJ_LOG_TRACE ≤ INT_MAX) :
    (E.getenv "PROJ_DEBUG" = none →
      (pj_ctx.createDefault E m a).1.debug_level ≤ E.PJ_LOG_TRACE) ∧
    (∀ s, E.getenv "PROJ_DEBUG" = some s → INT_MIN ≤ decimalValue s →
      decimalValue s ≤ E.PJ_LOG_TRACE →
      (pj_ctx.createDefault E m a).1.debug_level ≤ E.PJ_LOG_TRACE) ∧
    (∀ s, E.getenv "PROJ_DEBUG" = some s → E.PJ_LOG_TRACE < decimalValue s →
      decimalValue s ≤ INT_MAX →
      (pj_ctx.createDefault E m a).1.debug_level = decimalValue s ∧
        E.PJ_LOG_TRACE < (pj_ctx.createDefault E m a).1.debug_level) := by
  rw [createDefault_level]
  refine ⟨fun h => ?_, fun s h hlo hle => ?_, fun s h hgt hhi => ?_⟩
  · rw [h]; exact h1
  · have hv : E.atoi s = decimalValue s := hatoi s hlo (le_trans hle h2)
    rw [h]
    simp only [hv]
    split <;> omega
  · have hv : E.atoi s = decimalValue s := hatoi s (by unfold INT_MIN; omega) hhi
    rw [h]
    simp only [hv]
    rw [if_pos (by omega)]
    exact ⟨rfl, hgt⟩

theorem createDefault_level_bounded_below_only_witness :
    (pj_ctx.createDefault (projExternals (envWith none)) demoCtxMem none).1.debug_level ≤ 3 ∧
    (pj_ctx.createDefault (projExternals (envWith (some "-7"))) demoCtxMem none).1.debug_level
      ≤ 3 ∧
    ((pj_ctx.createDefault (projExternals (envWith (some "2147483647"))) demoCtxMem
        none).1.debug_level = decimalValue "2147483647" ∧
      3 < (pj_ctx.createDefault (projExternals (envWith (some "2147483647"))) demoCtxMem
        none).1.debug_level) :=
  ⟨(createDefault_level_bounded_below_only (projExternals (envWith none)) demoCtxMem none
      libc_atoi_inRange (by decide) (by decide) (by decide)).1 rfl,
    (createDefault_level_bounded_below_only (projExternals (envWith (some "-7"))) demoCtxMem none
      libc_atoi_inRange (by decide) (by decide) (by decide)).2.1 "-7" rfl (by decide)
      (by decide),
    (createDefault_level_bounded_below_only (projExternals (envWith (some "2147483647")))
      demoCtxMem none libc_atoi_inRange (by decide) (by decide) (by decide)).2.2 "2147483647"
      rfl (by decide) (by decide)⟩

theorem atoiDigits_of_not_digit (acc : Int) (c : Char) (cs : List Char) (h : c.isDigit = false) :
    atoiDigits acc (c :: cs) = acc := by
  simp [atoiDigits, h]

theorem decimalValue_without_digits (s : String) (h : hasNumericPrefix s = false) :
    decimalValue s = 0 := by
  unfold hasNumericPrefix at h
  unfold decimalValue atoiSigned
  cases hl : s.toList.dropWhile isspace with
  | nil => rfl
  | cons c rest =>
    rw [hl] at h
    simp only at h
    by_cases hm : c = '-'
    · simp only [hm, if_true]
      cases rest with
      | nil => rfl
      | cons d ds =>
        simp only [hm, decide_True, Bool.true_or, if_true] at h
        rw [atoiDigits_of_not_digit 0 d ds h]
        rfl
    · by_cases hp : c = '+'
      · simp only [hm, hp, if_true, if_false]
        cases rest with
        | nil => rfl
        | cons d ds =>
          simp only [hp, decide_True, Bool.or_true, if_true] at h
          rw [atoiDigits_of_not_digit 0 d ds h]
          simp
      · simp only [hm, hp, if_false]
        simp only [hm, hp, decide_False, Bool.or_self, Bool.false_eq_true, if_false] at h
        exact atoiDigits_of_not_digit 0 c rest h

theorem not_parses_without_digits (s : String) (h : hasNumericPrefix s = false) :
    parsesAsInteger s = false := by
  unfold hasNumericPrefix at h
  unfold parsesAsInteger
  cases hl : s.toList.dropWhile isspace with
  | nil => rfl
  | cons c rest =>
    rw [hl] at h
    simp only at h ⊢
    by_cases hs : (c = '-' || c = '+') = true
    · simp only [hs, if_true] at h ⊢
      cases rest with
      | nil => rfl
      | cons d ds =>
        simp only at h
        simp [h]
    · simp only [hs, if_false, Bool.false_eq_true] at h ⊢
      simp [h]

/-- C9, as the claim states it, fails: with `PROJ_DEBUG=abc`, which is not
parseable as an integer, and the levels of `proj.h`, the debug level of the
context `createDefault` returns is 0 and not `PJ_LOG_ERROR`. -/
theorem createDefault_unparseable_not_error :
    parsesAsInteger "abc" = false ∧
    (pj_ctx.createDefault (projExternals (envWith (some "abc"))) demoCtxMem none).1.debug_level
      = 0 ∧
    (pj_ctx.createDefault (projExternals (envWith (some "abc"))) demoCtxMem none).1.debug_level
      ≠ (projExternals (envWith (some "abc"))).PJ_LOG_ERROR := by
  decide

/-- C9, amended: `createDefault` overrides the debug level whenever `PROJ_DEBUG`
is present, parseable as an integer or not, from the integer `atoi` finds at the
head of the string: when that integer `v` is in the range of `int` the level is
`v`, or `PJ_LOG_TRACE` for `v < -PJ_LOG_TRACE`; a string without a numeric
prefix is not parseable, denotes 0 and gives debug level 0 (the level
`PJ_LOG_TRACE` being non-negative). -/
theorem createDefault_unparseable_level (E : Externals) (m : Mem) (a : Option Ptr)
    (s : String) (hatoi : AtoiInRange E.atoi) (h0 : 0 ≤ E.PJ_LOG_TRACE)
    (henv : E.getenv "PROJ_DEBUG" = some s) :
    (INT_MIN ≤ decimalValue s → decimalValue s ≤ INT_MAX →
      (pj_ctx.createDefault E m a).1.debug_level =
        (if decimalValue s ≥ -E.PJ_LOG_TRACE then decimalValue s else E.PJ_LOG_TRACE)) ∧
    (hasNumericPrefix s = false →
      parsesAsInteger s = false ∧ decimalValue s = 0 ∧
        (pj_ctx.createDefault E m a).1.debug_level = 0) := by
  have key : INT_MIN ≤ decimalValue s → decimalValue s ≤ INT_MAX →
      (pj_ctx.createDefault E m a).1.debug_level =
        (if decimalValue s ≥ -E.PJ_LOG_TRACE then decimalValue s else E.PJ_LOG_TRACE) := by
    intro hlo hhi
    rw [createDefault_level, henv]
    simp only [hatoi s hlo hhi]
  refine ⟨key, fun hs => ?_⟩
  have hz := decimalValue_without_digits s hs
  refine ⟨not_parses_without_digits s hs, hz, ?_⟩
  rw [key (by rw [hz]; decide) (by rw [hz]; decide), hz, if_pos (by omega)]

theorem createDefault_unparseable_level_witness :
    parsesAsInteger "5abc" = false ∧
    (pj_ctx.createDefault (projExternals (envWith (some "5abc"))) demoCtxMem none).1.debug_level
      = 5 ∧
    (parsesAsInteger "trace" = false ∧ decimalValue "trace" = 0 ∧
      (pj_ctx.createDefault (projExternals (envWith (some "trace"))) demoCtxMem
        none).1.debug_level = 0) :=
  ⟨by decide,
    (createDefault_unparseable_level (projExternals (envWith (some "5abc"))) demoCtxMem none
      "5abc" libc_atoi_inRange (by decide) rfl).1 (by decide) (by decide),
    (createDefault_unparseable_level (projExternals (envWith (some "trace"))) demoCtxMem none
      "trace" libc_atoi_inRange (by decide) rfl).2 (by decide)⟩

/-- C10, as the claim states it, fails: `PROJ_DEBUG=2147483648` denotes an
integer that is at least `-PJ_LOG_TRACE`, yet `atoi` returns `INT_MIN` for it
and the debug level of the context `createDefault` returns is `PJ_LOG_TRACE`,
not that integer. -/
theorem createDefault_above_int_range_not_stored :
    decimalValue "2147483648" = 2147483648 ∧
    decimalValue "2147483648" ≥ -(projExternals (envWith (some "2147483648"))).PJ_LOG_TRACE ∧
    (pj_ctx.createDefault (projExternals (envWith (some "2147483648"))) demoCtxMem
      none).1.debug_level = 3 ∧
    (pj_ctx.createDefault (projExternals (envWith (some "2147483648"))) demoCtxMem
      none).1.debug_level ≠ decimalValue "2147483648" := by
  decide

/-- C10, amended: when `PROJ_DEBUG` is absent, `createDefault` returns a context
whose debug level is `PJ_LOG_ERROR`; when it is present and the integer `v` it
denotes is in the range of `int` and at least `-PJ_LOG_TRACE`, the debug level
is `v` (`atoi` returning the value of a string that is in the range of `int`). -/
theorem createDefault_default_and_override (E : Externals) (m : Mem) (a : Option Ptr)
    (hatoi : AtoiInRange E.atoi) :
    (E.getenv "PROJ_DEBUG" = none →
      (pj_ctx.createDefault E m a).1.debug_level = E.PJ_LOG_ERROR) ∧
    (∀ s v, E.getenv "PROJ_DEBUG" = some s → decimalValue s = v → v ≥ -E.PJ_LOG_TRACE →
      INT_MIN ≤ v → v ≤ INT_MAX → (pj_ctx.createDefault E m a).1.debug_level = v) := by
  rw [createDefault_level]
  constructor
  · intro h; rw [h]
  · intro s v h hv hge hlo hhi
    subst hv
    rw [h]
    simp only [hatoi s hlo hhi, hge, if_true]

theorem createDefault_default_and_override_witness :
    (pj_ctx.createDefault (projExternals (envWith none)) demoCtxMem none).1.debug_level
      = (projExternals (envWith none)).PJ_LOG_ERROR ∧
    (pj_ctx.createDefault (projExternals (envWith (some " -2"))) demoCtxMem none).1.debug_level
      = -2 ∧
    (pj_ctx.createDefault (projExternals (envWith (some "2147483647"))) demoCtxMem
      none).1.debug_level = 2147483647 :=
  ⟨(createDefault_default_and_override (projExternals (envWith none)) demoCtxMem none
      libc_atoi_inRange).1 rfl,
    (createDefault_default_and_override (projExternals (envWith (some " -2"))) demoCtxMem
      none libc_atoi_inRange).2 " -2" (-2) rfl (by decide) (by decide) (by decide) (by decide),
    (createDefault_default_and_override (projExternals (envWith (some "2147483647")))
      demoCtxMem none libc_atoi_inRange).2 "2147483647" 2147483647 rfl (by decide) (by decide)
      (by decide) (by decide)⟩

theorem PJscan.union_assoc_ (a b c : PJscan) : (a.union b).union c = a.union (b.union c) := by
  simp [PJscan.union, Finset.union_assoc]

theorem PJscan.union_self_right (a b : PJscan) : (a.union b).union b = a.union b := by
  simp [PJscan.union, Finset.union_assoc]

theorem scanShape_andThen {f g : PJscan → Outcome PJscan} (hf : ScanShape f) (hg : ScanShape g) :
    ScanShape (fun s => (f s).andThen g) := by
  rcases hf with ⟨K, hK⟩ | hf | hf
  · rcases hg with ⟨L, hL⟩ | hg | hg
    · exact Or.inl ⟨K.union L, fun s => by simp [hK, hL, Outcome.andThen, PJscan.union_assoc_]⟩
    · exact Or.inr (Or.inl fun s => by simp [hK, hg, Outcome.andThen])
    · exact Or.inr (Or.inr fun s => by simp [hK, hg, Outcome.andThen])
  · exact Or.inr (Or.inl fun s => by simp [hf, Outcome.andThen])
  · exact Or.inr (Or.inr fun s => by simp [hf, Outcome.andThen])

theorem scanShape_local (P : PJ) : ScanShape (fun s => Outcome.ok (pj_scan_local P s)) :=
  Or.inl ⟨⟨P.kernels, P.kernelFiles⟩, fun s => by simp only [pj_scan_local_eq]⟩

theorem scanShape_hostScan (recursive : Mem → Option Ptr → PJscan → Outcome PJscan)
    (hrec : ∀ m P, ScanShape (recursive m P)) (m : Mem) (sub : Option Ptr) :
    ScanShape (hostScan recursive m sub) := by
  cases sub with
  | none => exact Or.inr (Or.inl fun s => rfl)
  | some q =>
    cases hn : m.pj q with
    | none => exact Or.inr (Or.inl fun s => by simp [hostScan, hn])
    | some node =>
      cases hs : node.host.scan with
      | none => exact Or.inr (Or.inl fun s => by simp [hostScan, hn, hs])
      | some fn =>
        cases fn with
        | pj_scan_recursive =>
          rcases hrec m (some q) with ⟨K, hK⟩ | h | h
          · exact Or.inl ⟨K, fun s => by simp [hostScan, hn, hs, hK]⟩
          · exact Or.inr (Or.inl fun s => by simp [hostScan, hn, hs, h])
          · exact Or.inr (Or.inr fun s => by simp [hostScan, hn, hs, h])
        | pj_scan_local =>
          exact Or.inl ⟨⟨node.kernels, node.kernelFiles⟩, fun s => by
            simp [hostScan, hn, hs, pj_scan_local_eq]⟩
        | pj_scan_nop =>
          exact Or.inl ⟨PJscan.empty, fun s => by
            simp [hostScan, hn, hs, pj_scan_nop, PJscan.union_empty_]⟩

theorem pj_scan_recursive_succ (fuel : Nat) (m : Mem) (p : Ptr) (node : PJ)
    (hn : m.pj p = some node) (s : PJscan) :
    pj_scan_recursive (fuel + 1) m (some p) s =
      (hostScan (pj_scan_recursive fuel) m node.axisswap (pj_scan_local node s)).andThen fun s =>
      (hostScan (pj_scan_recursive fuel) m node.cart s).andThen fun s =>
      (hostScan (pj_scan_recursive fuel) m node.cart_wgs84 s).andThen fun s =>
      (hostScan (pj_scan_recursive fuel) m node.helmert s).andThen fun s =>
      (hostScan (pj_scan_recursive fuel) m node.hgridshift s).andThen fun s =>
      hostScan (pj_scan_recursive fuel) m node.vgridshift s := by
  simp only [pj_scan_recursive, hn]

theorem scanShape_recursive : ∀ (fuel : Nat) (m : Mem) (P : Option Ptr),
    ScanShape (pj_scan_recursive fuel m P) := by
  intro fuel
  induction fuel with
  | zero => intro m P; exact Or.inr (Or.inr fun s => rfl)
  | succ fuel ih =>
    intro m P
    cases P with
    | none => exact Or.inr (Or.inl fun s => rfl)
    | some p =>
      cases hn : m.pj p with
      | none => exact Or.inr (Or.inl fun s => by simp [pj_scan_recursive, hn])
      | some node =>
        have h := scanShape_andThen (scanShape_local node)
          (scanShape_andThen (scanShape_hostScan _ ih m node.axisswap)
          (scanShape_andThen (scanShape_hostScan _ ih m node.cart)
          (scanShape_andThen (scanShape_hostScan _ ih m node.cart_wgs84)
          (scanShape_andThen (scanShape_hostScan _ ih m node.helmert)
          (scanShape_andThen (scanShape_hostScan _ ih m node.hgridshift)
            (scanShape_hostScan _ ih m node.vgridshift))))))
        have he : pj_scan_recursive (fuel + 1) m (some p) = fun s =>
            (Outcome.ok (pj_scan_local node s)).andThen fun s =>
            (hostScan (pj_scan_recursive fuel) m node.axisswap s).andThen fun s =>
            (hostScan (pj_scan_recursive fuel) m node.cart s).andThen fun s =>
            (hostScan (pj_scan_recursive fuel) m node.cart_wgs84 s).andThen fun s =>
            (hostScan (pj_scan_recursive fuel) m node.helmert s).andThen fun s =>
            (hostScan (pj_scan_recursive fuel) m node.hgridshift s).andThen
              (hostScan (pj_scan_recursive fuel) m node.vgridshift) := by
          funext s
          rw [pj_scan_recursive_succ fuel m p node hn]
          rfl
        rw [he]
        exact h

theorem scanShape_idem {f : PJscan → Outcome PJscan} (hf : ScanShape f) (s : PJscan) :
    (f s).andThen f = f s := by
  rcases hf with ⟨K, hK⟩ | hf | hf
  · simp [hK, Outcome.andThen, PJscan.union_self_right]
  · simp [hf, Outcome.andThen]
  · simp [hf, Outcome.andThen]

theorem andThen_eq_ok {α β : Type} {x : Outcome α} {f : α → Outcome β} {r : β}
    (h : x.andThen f = .ok r) : ∃ a, x = .ok a ∧ f a = .ok r := by
  cases x with
  | ok a => exact ⟨a, rfl, h⟩
  | fault => cases h
  | outOfFuel => cases h

theorem hostScan_mono {rec1 rec2 : Mem → Option Ptr → PJscan → Outcome PJscan}
    (h : ∀ m P s r, rec1 m P s = .ok r → rec2 m P s = .ok r) {m : Mem} {sub : Option Ptr}
    {s r : PJscan} (hr : hostScan rec1 m sub s = .ok r) : hostScan rec2 m sub s = .ok r := by
  cases sub with
  | none => cases hr
  | some q =>
    cases hn : m.pj q with
    | none => simp [hostScan, hn] at hr
    | some node =>
      cases hs : node.host.scan with
      | none => simp [hostScan, hn, hs] at hr
      | some fn =>
        cases fn with
        | pj_scan_recursive =>
          simp only [hostScan, hn, hs] at hr ⊢
          exact h _ _ _ _ hr
        | pj_scan_local => simp only [hostScan, hn, hs] at hr ⊢; exact hr
        | pj_scan_nop => simp only [hostScan, hn, hs] at hr ⊢; exact hr

theorem pj_scan_recursive_mono : ∀ (fuel : Nat) (m : Mem) (P : Option Ptr) (s r : PJscan),
    pj_scan_recursive fuel m P s = .ok r → pj_scan_recursive (fuel + 1) m P s = .ok r := by
  intro fuel
  induction fuel with
  | zero => intro m P s r h; cases h
  | succ fuel ih =>
    intro m P s r h
    cases P with
    | none => cases h
    | some p =>
      cases hn : m.pj p with
      | none => simp [pj_scan_recursive, hn] at h
      | some node =>
        rw [pj_scan_recursive_succ fuel m p node hn] at h
        rw [pj_scan_recursive_succ (fuel + 1) m p node hn]
        obtain ⟨s1, h1, h⟩ := andThen_eq_ok h
        obtain ⟨s2, h2, h⟩ := andThen_eq_ok h
        obtain ⟨s3, h3, h⟩ := andThen_eq_ok h
        obtain ⟨s4, h4, h⟩ := andThen_eq_ok h
        obtain ⟨s5, h5, h⟩ := andThen_eq_ok h
        simp only [hostScan_mono ih h1, hostScan_mono ih h2, hostScan_mono ih h3,
          hostScan_mono ih h4, hostScan_mono ih h5, hostScan_mono ih h, Outcome.andThen]

theorem pj_scan_recursive_mono_add (k : Nat) {fuel : Nat} {m : Mem} {P : Option Ptr}
    {s r : PJscan} (h : pj_scan_recursive fuel m P s = .ok r) :
    pj_scan_recursive (fuel + k) m P s = .ok r := by
  induction k with
  | zero => exact h
  | succ k ih => exact pj_scan_recursive_mono _ _ _ _ _ ih

/-- C11: running `pj_scan_recursive` a second time into the result of the first
run, on the same graph, gives the result of the first run (also when that is a
fault); two runs from the same starting result return the same result, whatever
fuel each has; a run keeps what the starting result holds. The scan functions
take the graph as an argument and return a scan result only, the source having
no write to the graph. -/
theorem pj_scan_recursive_idempotent (fuel : Nat) (m : Mem) (P : Option Ptr) (s : PJscan) :
    (pj_scan_recursive fuel m P s).andThen (pj_scan_recursive fuel m P)
      = pj_scan_recursive fuel m P s ∧
    (∀ fuel2 r1 r2, pj_scan_recursive fuel m P s = .ok r1 →
      pj_scan_recursive fuel2 m P s = .ok r2 → r2 = r1) ∧
    (∀ r1, pj_scan_recursive fuel m P s = .ok r1 →
      pj_scan_recursive fuel m P r1 = .ok r1 ∧ s.functions ⊆ r1.functions ∧
        s.files ⊆ r1.files) := by
  refine ⟨scanShape_idem (scanShape_recursive fuel m P) s, ?_, ?_⟩
  · intro fuel2 r1 r2 h1 h2
    have e1 := pj_scan_recursive_mono_add fuel2 h1
    have e2 := pj_scan_recursive_mono_add fuel h2
    rw [Nat.add_comm fuel2 fuel, e1] at e2
    cases e2
    rfl
  · intro r1 h1
    have hi := scanShape_idem (scanShape_recursive fuel m P) s
    rw [h1] at hi
    refine ⟨hi, ?_⟩
    rcases scanShape_recursive fuel m P with ⟨K, hK⟩ | hf | hf
    · rw [hK] at h1
      cases h1
      exact ⟨Finset.subset_union_left, Finset.subset_union_left⟩
    · rw [hf] at h1; cases h1
    · rw [hf] at h1; cases h1

theorem pj_scan_recursive_idempotent_witness :
    (pj_scan_recursive 1 demoPipeline (some 0) PJscan.empty).andThen
        (pj_scan_recursive 1 demoPipeline (some 0))
      = pj_scan_recursive 1 demoPipeline (some 0) PJscan.empty ∧
    (∀ fuel2 r1 r2, pj_scan_recursive 1 demoPipeline (some 0) PJscan.empty = .ok r1 →
      pj_scan_recursive fuel2 demoPipeline (some 0) PJscan.empty = .ok r2 → r2 = r1) ∧
    (∀ r1, pj_scan_recursive 1 demoPipeline (some 0) PJscan.empty = .ok r1 →
      pj_scan_recursive 1 demoPipeline (some 0) r1 = .ok r1 ∧
        PJscan.empty.functions ⊆ r1.functions ∧ PJscan.empty.files ⊆ r1.files) :=
  pj_scan_recursive_idempotent 1 demoPipeline (some 0) PJscan.empty

theorem scan_not_ok_of_absent (fuel : Nat) (m : Mem) (p : Ptr) (node : PJ) (s : PJscan)
    (hn : m.pj p = some node)
    (habs : node.axisswap = none ∨ node.cart = none ∨ node.cart_wgs84 = none ∨
      node.helmert = none ∨ node.hgridshift = none ∨ node.vgridshift = none) :
    ∀ r, pj_scan_recursive (fuel + 1) m (some p) s ≠ .ok r := by
  intro r h
  rw [pj_scan_recursive_succ fuel m p node hn] at h
  obtain ⟨s1, h1, h⟩ := andThen_eq_ok h
  obtain ⟨s2, h2, h⟩ := andThen_eq_ok h
  obtain ⟨s3, h3, h⟩ := andThen_eq_ok h
  obtain ⟨s4, h4, h⟩ := andThen_eq_ok h
  obtain ⟨s5, h5, h⟩ := andThen_eq_ok h
  rcases habs with e | e | e | e | e | e
  · rw [e] at h1; cases h1
  · rw [e] at h2; cases h2
  · rw [e] at h3; cases h3
  · rw [e] at h4; cases h4
  · rw [e] at h5; cases h5
  · rw [e] at h; cases h

/-- C13, at the failing input: a root whose axis-swap sub-operation is absent and
whose other five sub-operations are present. `pj_scan_recursive` evaluates
`P->axisswap->host` without a test, so the scan faults instead of skipping the
absent sub-operation, whatever the fuel. -/
theorem pj_scan_recursive_absent_sub_faults :
    demoPartial.pj 0 = some (demoStep ScanFn.pj_scan_recursive "pipeline.cpp" "" ""
      [none, some 2, some 3, some 4, some 5, some 6]) ∧
    pj_scan_recursive 1 demoPartial (some 0) PJscan.empty = .fault ∧
    (∀ fuel, pj_scan_recursive (fuel + 1) demoPartial (some 0) PJscan.empty = .fault) := by
  refine ⟨rfl, rfl, fun fuel => ?_⟩
  rw [pj_scan_recursive_succ fuel demoPartial 0 _ rfl]
  rfl

theorem pj_scan_local_dropAlts (n : PJ) (s : PJscan) :
    pj_scan_local n.dropAlts s = pj_scan_local n s := rfl

theorem hostScan_sameButAlts {rec1 rec2 : Mem → Option Ptr → PJscan → Outcome PJscan}
    {m m2 : Mem} (h : SameButAlts m m2) (hrec : ∀ P s, rec2 m2 P s = rec1 m P s)
    (sub : Option Ptr) (s : PJscan) : hostScan rec2 m2 sub s = hostScan rec1 m sub s := by
  cases sub with
  | none => rfl
  | some q =>
    have hq := h q
    cases hn : m.pj q with
    | none =>
      rw [hn] at hq
      cases hn2 : m2.pj q with
      | none => simp [hostScan, hn, hn2]
      | some n2 => rw [hn2] at hq; cases hq
    | some node =>
      rw [hn] at hq
      obtain ⟨node2, hn2, he⟩ : ∃ node2, m2.pj q = some node2 ∧ node2.dropAlts = node.dropAlts := by
        cases hn2 : m2.pj q with
        | none => rw [hn2] at hq; cases hq
        | some n2 => rw [hn2] at hq; exact ⟨n2, rfl, by simpa using hq⟩
      have hscan : node2.host.scan = node.host.scan := congrArg (fun n => n.host.scan) he
      have hloc : pj_scan_local node2 s = pj_scan_local node s := by
        rw [← pj_scan_local_dropAlts node2, he, pj_scan_local_dropAlts]
      simp only [hostScan, hn, hn2, hscan, hloc, hrec, pj_scan_nop]

theorem scan_sameButAlts {m m2 : Mem} (h : SameButAlts m m2) :
    ∀ (fuel : Nat) (P : Option Ptr) (s : PJscan),
      pj_scan_recursive fuel m2 P s = pj_scan_recursive fuel m P s := by
  intro fuel
  induction fuel with
  | zero => intro P s; rfl
  | succ fuel ih =>
    intro P s
    cases P with
    | none => rfl
    | some p =>
      have hp := h p
      cases hn : m.pj p with
      | none =>
        rw [hn] at hp
        cases hn2 : m2.pj p with
        | none => simp [pj_scan_recursive, hn, hn2]
        | some n2 => rw [hn2] at hp; cases hp
      | some node =>
        rw [hn] at hp
        obtain ⟨node2, hn2, he⟩ : ∃ node2, m2.pj p = some node2 ∧
            node2.dropAlts = node.dropAlts := by
          cases hn2 : m2.pj p with
          | none => rw [hn2] at hp; cases hp
          | some n2 => rw [hn2] at hp; exact ⟨n2, rfl, by simpa using hp⟩
        have hloc : pj_scan_local node2 s = pj_scan_local node s := by
          rw [← pj_scan_local_dropAlts node2, he, pj_scan_local_dropAlts]
        have hh : hostScan (pj_scan_recursive fuel) m2 = hostScan (pj_scan_recursive fuel) m := by
          funext sub s1
          exact hostScan_sameButAlts h ih sub s1
        have e1 : node2.axisswap = node.axisswap := congrArg (fun n => n.axisswap) he
        have e2 : node2.cart = node.cart := congrArg (fun n => n.cart) he
        have e3 : node2.cart_wgs84 = node.cart_wgs84 := congrArg (fun n => n.cart_wgs84) he
        have e4 : node2.helmert = node.helmert := congrArg (fun n => n.helmert) he
        have e5 : node2.hgridshift = node.hgridshift := congrArg (fun n => n.hgridshift) he
        have e6 : node2.vgridshift = node.vgridshift := congrArg (fun n => n.vgridshift) he
        rw [pj_scan_recursive_succ fuel m p node hn, pj_scan_recursive_succ fuel m2 p node2 hn2,
          hloc, hh, e1, e2, e3, e4, e5, e6]

theorem sameButAlts_dropAlts (m : Mem) : SameButAlts m m.dropAlts := by
  intro q
  simp only [Mem.dropAlts]
  cases m.pj q with
  | none => rfl
  | some n => rfl

/-- C14: the result of `pj_scan_recursive` does not depend on any alternatives
list: two roots of a graph that differ only in their alternatives lists scan to
the same result; so do two graphs that differ only in alternatives lists, at any
node; and a graph scans to what it scans to with every alternatives list emptied,
so nothing found only in an alternative is reported. -/
theorem pj_scan_recursive_ignores_alternatives (fuel : Nat) (m : Mem) (s : PJscan) :
    (∀ p1 p2 n1 n2, m.pj p1 = some n1 → m.pj p2 = some n2 → n2.dropAlts = n1.dropAlts →
      pj_scan_recursive fuel m (some p2) s = pj_scan_recursive fuel m (some p1) s) ∧
    (∀ m2 P, SameButAlts m m2 → pj_scan_recursive fuel m2 P s = pj_scan_recursive fuel m P s) ∧
    (∀ P, pj_scan_recursive fuel m.dropAlts P s = pj_scan_recursive fuel m P s) := by
  refine ⟨?_, fun m2 P h => scan_sameButAlts h fuel P s,
    fun P => scan_sameButAlts (sameButAlts_dropAlts m) fuel P s⟩
  intro p1 p2 n1 n2 h1 h2 he
  cases fuel with
  | zero => rfl
  | succ fuel =>
    have hloc : pj_scan_local n2 s = pj_scan_local n1 s := by
      rw [← pj_scan_local_dropAlts n2, he, pj_scan_local_dropAlts]
    have e1 : n2.axisswap = n1.axisswap := congrArg (fun n => n.axisswap) he
    have e2 : n2.cart = n1.cart := congrArg (fun n => n.cart) he
    have e3 : n2.cart_wgs84 = n1.cart_wgs84 := congrArg (fun n => n.cart_wgs84) he
    have e4 : n2.helmert = n1.helmert := congrArg (fun n => n.helmert) he
    have e5 : n2.hgridshift = n1.hgridshift := congrArg (fun n => n.hgridshift) he
    have e6 : n2.vgridshift = n1.vgridshift := congrArg (fun n => n.vgridshift) he
    rw [pj_scan_recursive_succ fuel m p1 n1 h1, pj_scan_recursive_succ fuel m p2 n2 h2,
      hloc, e1, e2, e3, e4, e5, e6]

theorem pj_scan_recursive_ignores_alternatives_witness :
    pj_scan_recursive 1 demoAlt (some 8) PJscan.empty
        = pj_scan_recursive 1 demoAlt (some 0) PJscan.empty ∧
      pj_scan_recursive 1 demoAlt.dropAlts (some 0) PJscan.empty
        = pj_scan_recursive 1 demoAlt (some 0) PJscan.empty :=
  ⟨(pj_scan_recursive_ignores_alternatives 1 demoAlt PJscan.empty).1 0 8 _ _ rfl rfl rfl,
    (pj_scan_recursive_ignores_alternatives 1 demoAlt PJscan.empty).2.2 (some 0)⟩


/-- C15: for a context `c` of a well-formed memory, the clone of `c` exists; if
`c` has no extended context the clone has none and no extended context is
made; if `c` has the extended context `x`, the clone has an extended context at
an address that held none before, whose state is that of `x` and which is bound
to the clone and not to `c`, while `x` itself is as before. -/
theorem clone_extended_context (create : Mem → Outcome (Option Ptr × Mem)) (m : Mem)
    (c : Ptr) (co : pj_ctx) (hf : m.Fresh) (hv : CtxValid m c co) :
    ∃ c2 m1 c2o,
      proj_context_clone create m (some c) = .ok (some c2, m1) ∧ m1.ctx c2 = some c2o ∧
      c2 ≠ c ∧
      (co.cpp_context = none → c2o.cpp_context = none ∧ m1.cpp = m.cpp) ∧
      (∀ x obj, co.cpp_context = some x → m.cpp x = some obj →
        ∃ x2 obj2, c2o.cpp_context = some x2 ∧ x2 ≠ x ∧ m.cpp x2 = none ∧
          m1.cpp x2 = some obj2 ∧ obj2.state = obj.state ∧ obj2.ctx = c2 ∧ obj2.ctx ≠ c ∧
          m1.cpp x = some obj) := by
  obtain ⟨m1, c2o, s2, os, v, hrun, hc2, -, -, -, -, -, -, -, -, -, -, hnone, hsome⟩ :=
    clone_spec create hf hv
  have hne : m.brk ≠ c := Nat.ne_of_gt (fresh_ctx_lt hf hv.1)
  refine ⟨m.brk, m1, c2o, hrun, hc2, hne, hnone, ?_⟩
  intro x obj hx hobj
  obtain ⟨x2, h1, h2, h3, h4⟩ := hsome x obj hx hobj
  have hxne : x2 ≠ x := by
    intro e
    rw [e, hobj] at h2
    cases h2
  exact ⟨x2, _, h1, hxne, h2, h3, rfl, rfl, hne, (h4 x hxne.symm).trans hobj⟩

theorem clone_extended_context_witness :
    ∃ c2 m1 c2o,
      proj_context_clone demoCreate demoCtxMem (some 0) = .ok (some c2, m1) ∧
      m1.ctx c2 = some c2o ∧ c2 ≠ 0 ∧
      (demoCtx0.cpp_context = none → c2o.cpp_context = none ∧ m1.cpp = demoCtxMem.cpp) ∧
      (∀ x obj, demoCtx0.cpp_context = some x → demoCtxMem.cpp x = some obj →
        ∃ x2 obj2, c2o.cpp_context = some x2 ∧ x2 ≠ x ∧ demoCtxMem.cpp x2 = none ∧
          m1.cpp x2 = some obj2 ∧ obj2.state = obj.state ∧ obj2.ctx = c2 ∧ obj2.ctx ≠ 0 ∧
          m1.cpp x = some obj) :=
  clone_extended_context demoCreate demoCtxMem 0 demoCtx0 demoCtxMem_fresh demoCtxMem_valid

/-- C16: `get_cpp_context` on a context without an extended context constructs
one (at an address that held none), bound to that very context, stores its
address in the context and returns it, leaving the other extended contexts as
they are; on a context that has one it returns that one and changes nothing; so
a call right after a call returns the same extended context, never null, and
changes nothing. -/
theorem get_cpp_context_lazy_singleton (m : Mem) (this : Ptr) :
    (∀ c, m.ctx this = some c → c.cpp_context = none →
      ∃ x m1 obj, pj_ctx.get_cpp_context m this = .ok (some x, m1) ∧
        m1.cpp x = some obj ∧ obj.ctx = this ∧
        m1.ctx this = some { c with cpp_context := some x } ∧
        (m.Fresh → m.cpp x = none) ∧ (∀ y, y ≠ x → m1.cpp y = m.cpp y)) ∧
    (∀ c x, m.ctx this = some c → c.cpp_context = some x →
      pj_ctx.get_cpp_context m this = .ok (some x, m)) ∧
    (∀ r m1, pj_ctx.get_cpp_context m this = .ok (r, m1) →
      r ≠ none ∧ pj_ctx.get_cpp_context m1 this = .ok (r, m1)) := by
  refine ⟨?_, ?_, ?_⟩
  · intro c hc hx
    refine ⟨m.brk, ?mem, projCppContext.construct this, ?run, ?_, rfl, ?_, ?_, ?_⟩
    case run =>
      simp only [pj_ctx.get_cpp_context, hc, hx]
      exact rfl
    · simp [Mem.setCtx, Mem.setCpp]
    · exact setCtx_self _ _ _
    · intro hf; exact (hf _ (Nat.le_refl _)).2.2.2
    · intro y hy; simp [Mem.setCtx, Mem.setCpp, hy]
  · intro c x hc hx
    simp only [pj_ctx.get_cpp_context, hc, hx]
  · intro r m1 h
    cases hc : m.ctx this with
    | none => simp [pj_ctx.get_cpp_context, hc] at h
    | some c =>
      cases hx : c.cpp_context with
      | none =>
        simp only [pj_ctx.get_cpp_context, hc, hx, Outcome.ok.injEq, Prod.mk.injEq] at h
        obtain ⟨rfl, rfl⟩ := h
        refine ⟨by simp, ?_⟩
        simp only [pj_ctx.get_cpp_context, setCtx_self]
      | some x =>
        simp only [pj_ctx.get_cpp_context, hc, hx, Outcome.ok.injEq, Prod.mk.injEq] at h
        obtain ⟨rfl, rfl⟩ := h
        refine ⟨by simp, ?_⟩
        simp only [pj_ctx.get_cpp_context, hc, hx]

theorem get_cpp_context_lazy_singleton_witness :
    (∃ x m1 obj, pj_ctx.get_cpp_context demoTree 10 = .ok (some x, m1) ∧
        m1.cpp x = some obj ∧ obj.ctx = 10 ∧
        m1.ctx 10 = some { demoCtx 1 [] none none (some 20) with cpp_context := some x } ∧
        (demoTree.Fresh → demoTree.cpp x = none) ∧ (∀ y, y ≠ x → m1.cpp y = demoTree.cpp y)) ∧
      pj_ctx.get_cpp_context demoCtxMem 0 = .ok (some 0, demoCtxMem) :=
  ⟨(get_cpp_context_lazy_singleton demoTree 10).1 _ rfl rfl,
    (get_cpp_context_lazy_singleton demoCtxMem 0).2.1 _ 0 rfl rfl⟩

theorem forEach_skip_null (hooks : Nat → Hook) (fuel : Nat) (ctx : Option Ptr) :
    ∀ (alts : List PJCoordOperation) (m : Mem),
      Outcome.forEach (fun acc alt => proj_assign_context hooks fuel acc alt.pj ctx) m alts =
        Outcome.forEach (fun acc alt => proj_assign_context hooks fuel acc alt.pj ctx) m
          (alts.filter (fun a => a.pj.isSome)) := by
  intro alts
  induction alts with
  | nil => intro m; rfl
  | cons alt l ih =>
    intro m
    cases hp : alt.pj with
    | none =>
      simp only [Outcome.forEach, hp, proj_assign_context_null, List.filter, Option.isSome]
      exact ih m
    | some q =>
      simp only [Outcome.forEach, hp, List.filter, Option.isSome]
      cases proj_assign_context hooks fuel m (some q) ctx with
      | ok m1 => exact ih m1
      | fault => rfl
      | outOfFuel => rfl

/-- C17: `proj_assign_context` with a null node returns, with any fuel and any
context argument (a dangling one included), and leaves the whole memory as it
is; a null entry of an alternatives list is skipped: the loop over a list does
what the loop over the list without its null entries does. -/
theorem proj_assign_context_null_is_noop (hooks : Nat → Hook) (fuel : Nat) (m : Mem)
    (ctx : Option Ptr) :
    proj_assign_context hooks fuel m none ctx = .ok m ∧
    (∀ rest : List PJCoordOperation,
      Outcome.forEach (fun acc alt => proj_assign_context hooks fuel acc alt.pj ctx) m
          (⟨none⟩ :: rest) =
        Outcome.forEach (fun acc alt => proj_assign_context hooks fuel acc alt.pj ctx) m rest) ∧
    (∀ alts : List PJCoordOperation,
      Outcome.forEach (fun acc alt => proj_assign_context hooks fuel acc alt.pj ctx) m alts =
        Outcome.forEach (fun acc alt => proj_assign_context hooks fuel acc alt.pj ctx) m
          (alts.filter (fun a => a.pj.isSome))) := by
  refine ⟨proj_assign_context_null hooks fuel m ctx, fun rest => ?_,
    fun alts => forEach_skip_null hooks fuel ctx alts m⟩
  simp only [Outcome.forEach, proj_assign_context_null]

/-- C18: `pj_scan_local` on a node and a starting result `s` yields as kernels
those of `s` and the node's non-empty slots, as files those of `s` and, if a
slot is non-empty, the node's source file; what `s` holds stays; the kernels
are a set, so a name in several slots counts once; `pj_scan_nop` returns `s`. -/
theorem pj_scan_local_exact (P : PJ) (s : PJscan) :
    (pj_scan_local P s).functions = s.functions ∪ P.kernels ∧
    (pj_scan_local P s).files
      = (if P.hasKernel then insert P.host.file s.files else s.files) ∧
    (∀ k, k ∈ (pj_scan_local P s).functions ↔
      k ∈ s.functions ∨ (k ∈ [P.fwd, P.inv, P.fwd3d, P.inv3d, P.fwd4d, P.inv4d] ∧ k ≠ "")) ∧
    s.functions ⊆ (pj_scan_local P s).functions ∧ s.files ⊆ (pj_scan_local P s).files ∧
    P.kernels.card = ((P.slots.filter slotSet).dedup).length ∧
    pj_scan_nop P s = s := by
  rw [pj_scan_local_eq]
  refine ⟨rfl, ?_, ?_, Finset.subset_union_left, Finset.subset_union_left,
    List.card_toFinset _, rfl⟩
  · simp only [PJscan.union, PJ.kernelFiles]
    split
    · ext x; simp only [Finset.mem_union, Finset.mem_singleton, Finset.mem_insert]; tauto
    · simp
  · intro k
    simp only [PJscan.union, PJ.kernels, PJ.slots, Finset.mem_union, List.mem_toFinset,
      List.mem_filter, slotSet]
    have : (!k.isEmpty) = true ↔ k ≠ "" := by
      have h := String.isEmpty_iff k
      cases hk : k.isEmpty with
      | false => simp only [hk, Bool.false_eq_true, false_iff] at h; simpa using h
      | true => simp only [hk, true_iff] at h; simp [h]
    rw [this]
theorem pj_get_default_ctx_fst (E : Externals) (D : Ptr) (m : Mem) :
    (pj_get_default_ctx E D m).1 = some D := by
  unfold pj_get_default_ctx
  cases m.ctx D <;> rfl

theorem pj_get_default_ctx_exists (E : Externals) (D : Ptr) (m : Mem) :
    ∃ d, (pj_get_default_ctx E D m).2.ctx D = some d := by
  unfold pj_get_default_ctx
  cases h : m.ctx D with
  | none => exact ⟨_, setCtx_self _ _ _⟩
  | some d => exact ⟨d, h⟩

theorem pj_get_default_ctx_of_some (E : Externals) (D : Ptr) {m : Mem} {d : pj_ctx}
    (h : m.ctx D = some d) : pj_get_default_ctx E D m = (some D, m) := by
  simp only [pj_get_default_ctx, h]

/-- C19: `pj_get_ctx` returns the default context for a null node and for a node
whose context reference is null, and the node's own context reference, with
the memory untouched, for a node whose context reference is not null; the
default context is the one at the address of the static, it exists after the
call and a later call finds it and makes no other; the pointer `pj_get_ctx`
returns is never null. -/
theorem pj_get_ctx_cases (E : Externals) (D : Ptr) (m : Mem) (pj : Option Ptr) :
    (pj = none → pj_get_ctx E D m pj = .ok (pj_get_default_ctx E D m)) ∧
    (∀ p node, pj = some p → m.pj p = some node → node.host.ctx = none →
      pj_get_ctx E D m pj = .ok (pj_get_default_ctx E D m)) ∧
    (∀ p node c, pj = some p → m.pj p = some node → node.host.ctx = some c →
      pj_get_ctx E D m pj = .ok (some c, m)) ∧
    (pj_get_default_ctx E D m).1 = some D ∧
    (∃ d, (pj_get_default_ctx E D m).2.ctx D = some d) ∧
    pj_get_default_ctx E D (pj_get_default_ctx E D m).2
      = (some D, (pj_get_default_ctx E D m).2) ∧
    (∀ r m1, pj_get_ctx E D m pj = .ok (r, m1) → r ≠ none) := by
  refine ⟨?_, ?_, ?_, pj_get_default_ctx_fst E D m, pj_get_default_ctx_exists E D m, ?_, ?_⟩
  · intro h; subst h; rfl
  · intro p node h hn hc; subst h; simp only [pj_get_ctx, hn, hc]
  · intro p node c h hn hc; subst h; simp only [pj_get_ctx, hn, hc]
  · obtain ⟨d, hd⟩ := pj_get_default_ctx_exists E D m
    exact pj_get_default_ctx_of_some E D hd
  · intro r m1 h
    have hdef : ∀ r m1, Outcome.ok (pj_get_default_ctx E D m) = Outcome.ok (r, m1) → r ≠ none := by
      intro r m1 e
      have e1 := pj_get_default_ctx_fst E D m
      simp only [Outcome.ok.injEq] at e
      rw [e] at e1
      simp only at e1
      rw [e1]
      simp
    cases pj with
    | none => exact hdef r m1 h
    | some p =>
      cases hn : m.pj p with
      | none => simp [pj_get_ctx, hn] at h
      | some node =>
        cases hc : node.host.ctx with
        | none =>
          simp only [pj_get_ctx, hn, hc] at h
          exact hdef r m1 h
        | some c =>
          simp only [pj_get_ctx, hn, hc, Outcome.ok.injEq, Prod.mk.injEq] at h
          rw [← h.1]
          simp

theorem pj_get_ctx_cases_witness :
    pj_get_ctx (projExternals (envWith none)) 0 demoTree none
        = .ok (pj_get_default_ctx (projExternals (envWith none)) 0 demoTree) ∧
      pj_get_ctx (projExternals (envWith none)) 0 demoTree (some 2)
        = .ok (pj_get_default_ctx (projExternals (envWith none)) 0 demoTree) ∧
      pj_get_ctx (projExternals (envWith none)) 0 demoTree (some 0) = .ok (some 10, demoTree) :=
  ⟨(pj_get_ctx_cases (projExternals (envWith none)) 0 demoTree none).1 rfl,
    (pj_get_ctx_cases (projExternals (envWith none)) 0 demoTree (some 2)).2.1 2 _ rfl rfl rfl,
    (pj_get_ctx_cases (projExternals (envWith none)) 0 demoTree (some 0)).2.2.1 0 _ 10 rfl rfl
      rfl⟩

/-- C20: on a well-formed graph, `proj_assign_context(pj, nullptr)` returns with
any fuel above the rank of `pj`, whatever contexts the memory holds (no context
is looked up), and afterwards `pj` and every node reachable from it through the
alternatives lists has a null context reference and a null shared-state
reference, so that `pj_get_ctx` on it returns the default context; provided no
hook overwrites those references. -/
theorem proj_assign_context_null_ctx (hooks : Nat → Hook) (m : Mem) (pj : Ptr)
    (rank : Ptr → Nat) (fuel : Nat) (E : Externals) (D : Ptr)
    (hk : HooksKeepRefs hooks) (w : AltsWellFormed m rank) (hpj : ∃ n, m.pj pj = some n)
    (hfuel : rank pj < fuel) :
    sharedOf m none = .ok none ∧
    ∃ m1, proj_assign_context hooks fuel m (some pj) none = .ok m1 ∧
      ∀ q, Reach m pj q →
        ∃ n, m1.pj q = some n ∧ n.host.ctx = none ∧ n.shared_ctx = none ∧
          pj_get_ctx E D m1 (some q) = .ok (pj_get_default_ctx E D m1) := by
  obtain ⟨m1, hrun, _, _, hall⟩ := assign_ok hooks hk none none rank fuel m pj w hfuel hpj rfl
  refine ⟨rfl, m1, hrun, fun q hq => ?_⟩
  obtain ⟨n, hn, hc, hs⟩ := hall q hq
  exact ⟨n, hn, hc, hs, by simp only [pj_get_ctx, hn, hc]⟩

theorem proj_assign_context_null_ctx_witness :
    sharedOf demoTree none = .ok none ∧
    ∃ m1, proj_assign_context demoHooks 4 demoTree (some 0) none = .ok m1 ∧
      ∀ q, Reach demoTree 0 q →
        ∃ n, m1.pj q = some n ∧ n.host.ctx = none ∧ n.shared_ctx = none ∧
          pj_get_ctx (projExternals (envWith none)) 0 m1 (some q)
            = .ok (pj_get_default_ctx (projExternals (envWith none)) 0 m1) :=
  proj_assign_context_null_ctx demoHooks demoTree 0 (fun p => 3 - p) 4
    (projExternals (envWith none)) 0 demoHooks_keep demoTree_wellFormed ⟨_, rfl⟩ (by decide)

end Proj
